import Mathlib

/-!
Verification development for the tRPC navigation plugin.

This file gives a shallow embedding of the plugin's router-structure
resolution engine and proves properties of it:

- the dynamic `Navigator` of `src/type-resolver.ts` (router-path walking,
  property scanning, the procedure/router classifier, identifier
  resolution and import resolution);
- the explicit-mode router locator `TypeResolver.extractRouterType` of
  `src/type-resolver.ts`;
- the `NavigationCache` of `src/cache.ts` (time- and content-hash-based
  invalidation);
- the batch scanner `AstScanner.analyzeRouter` / `buildRouterHierarchy`
  of `src/ast-scanner.ts`, and the batch-mode lookup fallback of the
  plugin's `getDefinitionAndBoundSpan` proxy.

TypeScript syntax nodes are embedded as inductive types; the `getText`
printer models the source text of a node, which the classifier inspects
via substring tests exactly as the TypeScript code does.  Source files
are modeled by their top-level statements in document order.  File
systems, module resolution and the md5 hash are abstracted as explicit
function parameters, so every definition stays executable.
-/

/-- Boolean prefix test on character lists. -/
def charsPrefixB : List Char → List Char → Bool
  | [], _ => true
  | _ :: _, [] => false
  | a :: as, b :: bs => a == b && charsPrefixB as bs

/-- Boolean contiguous-sublist test on character lists. -/
def charsInfixB (pat : List Char) : List Char → Bool
  | [] => charsPrefixB pat []
  | c :: rest => charsPrefixB pat (c :: rest) || charsInfixB pat rest

/-- Substring test: models JavaScript `String.prototype.includes`. -/
def strIncludes (s pat : String) : Bool :=
  charsInfixB pat.toList s.toList

/-- Boolean prefix test on strings: models `String.startsWith`. -/
def strStartsWith (s pat : String) : Bool :=
  charsPrefixB pat.toList s.toList

/-- Boolean suffix test on strings: models `String.endsWith`. -/
def strEndsWith (s pat : String) : Bool :=
  charsPrefixB pat.toList.reverse s.toList.reverse

/-- ASCII lower-casing of one character. -/
def charLower (c : Char) : Char :=
  if 'A' ≤ c ∧ c ≤ 'Z' then Char.ofNat (c.toNat + 32) else c

/-- ASCII lower-casing: models `toLowerCase` on the identifier names the
plugin compares. -/
def strToLower (s : String) : String :=
  String.mk (s.toList.map charLower)

/-- Split on a separator character, accumulator-style. -/
def splitOnCharAux (sep : Char) : List Char → List Char → List (List Char)
  | [], acc => [acc.reverse]
  | c :: rest, acc =>
    if c = sep then acc.reverse :: splitOnCharAux sep rest []
    else splitOnCharAux sep rest (c :: acc)

/-- Split on a separator character: models `String.prototype.split` with
a one-character separator. -/
def strSplitOnChar (sep : Char) (s : String) : List String :=
  (splitOnCharAux sep s.toList []).map String.mk

/-- Joins path segments with dots: models `Array.prototype.join(".")`. -/
def dotJoin : List String → String
  | [] => ""
  | [s] => s
  | s :: rest => s ++ "." ++ dotJoin rest

/-- Drops the final slash component: a model of `path.dirname`. -/
def dirnameOf (p : String) : String :=
  match p.toList.reverse.dropWhile (fun c => c ≠ '/') with
  | [] => ""
  | _ :: tail => String.mk tail.reverse

/-- Model of `path.resolve(dir, rel)` for the relative specifiers the
plugin feeds it: joins with a slash after stripping one leading "./";
".." segments are kept unnormalized. -/
def resolveRel (dir rel : String) : String :=
  dir ++ "/" ++ (if strStartsWith rel ("./") then rel.drop 2 else rel)

/-- Model of `path.isAbsolute` for POSIX paths. -/
def isAbsolutePath (p : String) : Bool :=
  strStartsWith p ("/")

/-- Property name of a TypeScript object-literal property: the plugin only
treats identifier keys as matchable, so the embedding separates them. -/
inductive PropKey where
  | identKey (name : String)
  | otherKey (text : String)
  deriving DecidableEq, Repr

mutual
/-- Embedded TypeScript expression, restricted to the node kinds the
plugin's walkers distinguish; every other expression is `rawExpr` with
its source text. -/
inductive Expr where
  | ident (name : String)
  | propAccess (obj : Expr) (propName : String)
  | call (callee : Expr) (args : List Expr)
  | objectLit (props : List ObjProp)
  | satisfiesExpr (inner : Expr) (typeText : String)
  | rawExpr (text : String)

/-- Embedded object-literal property: a simple `key: value` assignment
(with its source span), a shorthand property, or a spread entry. -/
inductive ObjProp where
  | propAssign (key : PropKey) (value : Expr) (pstart pstop : Nat)
  | shorthand (name : String)
  | spread (e : Expr)
end

/-- Source text of a property key (string-literal keys keep quotes). -/
def PropKey.text : PropKey → String
  | .identKey n => n
  | .otherKey t => "\x22" ++ t ++ "\x22"

mutual
/-- Source text of an expression: models `node.getText()`. -/
def Expr.getText : Expr → String
  | .ident n => n
  | .propAccess o p => o.getText ++ "." ++ p
  | .call f args => f.getText ++ "(" ++ exprListText args ++ ")"
  | .objectLit props => "\x7b " ++ objPropsText props ++ " \x7d"
  | .satisfiesExpr e t => e.getText ++ " satisfies " ++ t
  | .rawExpr t => t

/-- Source text of a comma-separated argument list. -/
def exprListText : List Expr → String
  | [] => ""
  | [e] => e.getText
  | e :: rest => e.getText ++ ", " ++ exprListText rest

/-- Source text of an object literal's property list. -/
def objPropsText : List ObjProp → String
  | [] => ""
  | [p] => objPropText p
  | p :: rest => objPropText p ++ ", " ++ objPropsText rest

/-- Source text of a single object-literal property. -/
def objPropText : ObjProp → String
  | .propAssign k v _ _ => k.text ++ ": " ++ v.getText
  | .shorthand n => n
  | .spread e => "..." ++ e.getText
end

/-- Embedded variable declaration: name, optional initializer and the
character span of the declaration node in its file. -/
structure VarDecl where
  name : String
  initializer : Option Expr
  vstart : Nat
  vstop : Nat

/-- Element of a named-exports clause (`export \x7b a as b \x7d`). -/
structure ExportElem where
  name : String
  propertyName : Option String
  deriving DecidableEq, Repr



/-- Embedded top-level statement of a source file. -/
inductive Stmt where
  | varStmt (exported : Bool) (decls : List VarDecl)
  | importStmt (names : List String) (spec : String)
  | exportAssignStmt (isExportEquals : Bool) (expr : Expr)
  | exportNamedStmt (elems : List ExportElem)

/-- Embedded source file: file name plus top-level statements in
document order (the plugin's visitors scan statements in this order). -/
structure SourceFile where
  fileName : String
  stmts : List Stmt

/-- A declaration together with the source file containing it (the pair
that `decl.getSourceFile()` recovers in the TypeScript code). -/
structure LocDecl where
  sf : SourceFile
  decl : VarDecl

/-- Returns the first `some` produced by `f` over the list, in order. -/
def listFirstSome {α β : Type} (l : List α) (f : α → Option β) : Option β :=
  match l with
  | [] => none
  | a :: rest =>
    match f a with
    | some b => some b
    | none => listFirstSome rest f

/-!
Navigator model.

Embeds the `Navigator` class of `src/type-resolver.ts` (the version with
object-literal and satisfies support): `navigateRouterPath`,
`processRouterSegment`, `handleIdentifierProperty`,
`handleInlineProcedure`, `findDeclaration`, `findImportedDeclaration`,
`findExportedDeclaration`, `findRouterCall`, `isProcedureDeclaration`,
`isRouterDeclaration`, `isObjectRouter`, `isProcedureCall` and
`createDefinitionFromDeclaration`.

The server host's file system (fileExists + readFile + createSourceFile)
is modeled by a single partial map `NavEnv` from absolute paths to parsed
source files; an unreadable or missing file maps to `none`, which makes
the extension-probing loop continue exactly as in the code.
-/

/-- File system as seen by `Navigator`: path to parsed file. -/
def NavEnv : Type := String → Option SourceFile

namespace Navigator

/-- Result record of `createDefinitionFromDeclaration` and
`handleInlineProcedure`: the fields of `ts.DefinitionInfo` the Navigator
fills in. -/
structure DefinitionInfo where
  fileName : String
  tstart : Nat
  tlength : Nat
  kind : String
  name : String
  containerName : String
  deriving DecidableEq, Repr

/-- Embeds `Navigator.createDefinitionFromDeclaration`. -/
def createDefinitionFromDeclaration (sf : SourceFile) (d : VarDecl) (name : String) :
    DefinitionInfo :=
  { fileName := sf.fileName
    tstart := d.vstart
    tlength := d.vstop - d.vstart
    kind := "module"
    name := name
    containerName := "TRPC" }

/-- Callee test of `Navigator.findRouterCall`: an identifier whose
lowercased text contains "router" or "trpc", or a property access whose
name is exactly "router". -/
def navCalleeMatches : Expr → Bool
  | .ident n => strIncludes (strToLower n) ("router") || strIncludes (strToLower n) ("trpc")
  | .propAccess _ pn => pn == "router"
  | _ => false

mutual
/-- Embeds `Navigator.findRouterCall`: pre-order search for the first
call expression whose callee matches `navCalleeMatches`. -/
def findRouterCall : Expr → Option Expr
  | .call f args =>
    if navCalleeMatches f then some (.call f args)
    else
      match findRouterCall f with
      | some r => some r
      | none => findRouterCallList args
  | .propAccess o _ => findRouterCall o
  | .objectLit props => findRouterCallProps props
  | .satisfiesExpr inner _ => findRouterCall inner
  | .ident _ => none
  | .rawExpr _ => none

/-- Search of `findRouterCall` over an argument list, in order. -/
def findRouterCallList : List Expr → Option Expr
  | [] => none
  | e :: rest =>
    match findRouterCall e with
    | some r => some r
    | none => findRouterCallList rest

/-- Search of `findRouterCall` over object-literal properties, in order. -/
def findRouterCallProps : List ObjProp → Option Expr
  | [] => none
  | p :: rest =>
    match findRouterCallProp p with
    | some r => some r
    | none => findRouterCallProps rest

/-- Search of `findRouterCall` inside one object-literal property. -/
def findRouterCallProp : ObjProp → Option Expr
  | .propAssign _ v _ _ => findRouterCall v
  | .shorthand _ => none
  | .spread e => findRouterCall e
end

/-- Property check of `Navigator.isObjectRouter`: a property assignment
whose value's text contains a procedure-builder method, or whose value
is a bare identifier. -/
def objRouterProp : ObjProp → Bool
  | .propAssign _ v _ _ =>
    strIncludes v.getText (".query") || strIncludes v.getText (".mutation") ||
      strIncludes v.getText (".subscription") ||
      (match v with
       | .ident _ => true
       | _ => false)
  | _ => false

/-- Embeds `Navigator.isObjectRouter`: an object literal (possibly
satisfies-wrapped) one of whose properties indicates a procedure or a
router reference. -/
def isObjectRouter : Expr → Bool
  | .objectLit props => props.any objRouterProp
  | .satisfiesExpr (.objectLit props) _ => props.any objRouterProp
  | _ => false

/-- Embeds `Navigator.isRouterDeclaration`: the node's text contains
"router(" or the node is an object-literal router. -/
def isRouterDeclaration (e : Expr) : Bool :=
  strIncludes e.getText ("router(") || isObjectRouter e

/-- Embeds `Navigator.isProcedureDeclaration`: routers take precedence;
otherwise the initializer's text must contain "Procedure" and one of the
procedure-builder method names. -/
def isProcedureDeclaration (d : VarDecl) : Bool :=
  match d.initializer with
  | none => false
  | some i =>
    if isRouterDeclaration i then false
    else
      strIncludes i.getText ("Procedure") &&
        (strIncludes i.getText (".query") || strIncludes i.getText (".mutation") ||
          strIncludes i.getText (".subscription"))

/-- Embeds `Navigator.isProcedureCall`. -/
def isProcedureCall (e : Expr) : Bool :=
  strIncludes e.getText ("Procedure") &&
    (strIncludes e.getText (".query") || strIncludes e.getText (".mutation") ||
      strIncludes e.getText (".subscription")) &&
    !(strIncludes e.getText ("router("))

/-- The two classifications of spec section 4.5. -/
inductive Classification where
  | procedure
  | router
  deriving DecidableEq, Repr

/-- The classifier as consumed by `handleIdentifierProperty`: a resolved
declaration is treated as a procedure exactly when
`isProcedureDeclaration` holds, and as a router otherwise (all
non-procedure branches of `handleIdentifierProperty` are router
branches). -/
def classify (d : VarDecl) : Classification :=
  if isProcedureDeclaration d then .procedure else .router

/-- Local search of `Navigator.findDeclaration`: first variable
declaration with the given name, in statement order. -/
def findLocalVarDecl (sf : SourceFile) (name : String) : Option VarDecl :=
  listFirstSome sf.stmts fun st =>
    match st with
    | .varStmt _ decls => decls.find? (fun d => d.name == name)
    | _ => none

/-- Embeds `Navigator.findExportedDeclaration`: first variable
declaration with the given name inside an exported variable statement. -/
def findExportedDeclaration (sf : SourceFile) (name : String) : Option VarDecl :=
  listFirstSome sf.stmts fun st =>
    match st with
    | .varStmt exported decls =>
      if exported then decls.find? (fun d => d.name == name) else none
    | _ => none

/-- Import scan of `Navigator.findImportedDeclaration`: module specifier
of the first import declaration whose named imports bind `name`. -/
def findImportPathFor (sf : SourceFile) (name : String) : Option String :=
  listFirstSome sf.stmts fun st =>
    match st with
    | .importStmt names spec => if names.contains name then some spec else none
    | _ => none

/-- Extension list tried by `Navigator.findImportedDeclaration`. -/
def importExtensions : List String :=
  ["", ".ts", ".tsx", "/index.ts", "/index.tsx"]

/-- Extension-probing loop of `Navigator.findImportedDeclaration`: the
first path that exists and parses is searched for an exported
declaration, and its result is returned even when that search fails. -/
def tryExtensions (env : NavEnv) (name resolved : String) : List String → Option LocDecl
  | [] => none
  | ext :: rest =>
    match env (resolved ++ ext) with
    | some sf =>
      match findExportedDeclaration sf name with
      | some d => some ⟨sf, d⟩
      | none => none
    | none => tryExtensions env name resolved rest

/-- Embeds `Navigator.findImportedDeclaration`: only relative module
specifiers (starting with ".") are resolved; anything else yields
`none`. -/
def findImportedDeclaration (env : NavEnv) (name : String) (sf : SourceFile) :
    Option LocDecl :=
  match findImportPathFor sf name with
  | none => none
  | some ip =>
    if strStartsWith ip (".") then
      tryExtensions env name (resolveRel (dirnameOf sf.fileName) ip) importExtensions
    else none

/-- Embeds `Navigator.findDeclaration`: local search first, then
the import-following fallback. -/
def findDeclaration (env : NavEnv) (name : String) (sf : SourceFile) : Option LocDecl :=
  match findLocalVarDecl sf name with
  | some d => some ⟨sf, d⟩
  | none => findImportedDeclaration env name sf

/-- Outcome of one `processRouterSegment` step: a terminal definition, a
next declaration to continue from, a null result, or a thrown exception
(caught by `navigateRouterPath`, which then returns null). -/
inductive StepOutcome where
  | definition (d : DefinitionInfo)
  | nextDecl (l : LocDecl)
  | notFound
  | thrown

/-- Embeds `Navigator.handleIdentifierProperty`.  Note that the source
computes `isRouterDeclaration(declaration.initializer!)`; when the
resolved declaration has no initializer this dereference throws, which
the embedding records as `thrown`. -/
def handleIdentifierProperty (env : NavEnv) (idName segment : String) (isLast : Bool)
    (sf : SourceFile) : StepOutcome :=
  match findDeclaration env idName sf with
  | none => .notFound
  | some ld =>
    let isProcedure := isProcedureDeclaration ld.decl
    match ld.decl.initializer with
    | none => .thrown
    | some _ =>
      if isProcedure && isLast then
        .definition (createDefinitionFromDeclaration ld.sf ld.decl segment)
      else if !isProcedure && isLast then
        .definition (createDefinitionFromDeclaration ld.sf ld.decl segment)
      else if !isProcedure then
        .nextDecl ld
      else
        .definition (createDefinitionFromDeclaration ld.sf ld.decl segment)

/-- Embeds `Navigator.handleInlineProcedure`: only a procedure-looking
call on the last segment produces a definition, spanning the whole
property assignment. -/
def handleInlineProcedure (sf : SourceFile) (value : Expr) (segment : String)
    (isLast : Bool) (pstart pstop : Nat) : StepOutcome :=
  if !isLast || !(isProcedureCall value) then .notFound
  else
    .definition
      { fileName := sf.fileName
        tstart := pstart
        tlength := pstop - pstart
        kind := "function"
        name := segment
        containerName := "TRPC Procedure" }

/-- Entries-node extraction of `Navigator.processRouterSegment`: the
object-literal argument of a found router call, else a plain
object-literal initializer, else a satisfies-wrapped object literal. -/
def routesObjectOf (init : Expr) : Option (List ObjProp) :=
  match findRouterCall init with
  | some (.call _ (.objectLit props :: _)) => some props
  | _ =>
    match init with
    | .objectLit props => some props
    | .satisfiesExpr (.objectLit props) _ => some props
    | _ => none

/-- Match test of the property scan loop in `processRouterSegment`: a
property assignment whose name is an identifier equal to the segment. -/
def matchesSegB (segment : String) : ObjProp → Bool
  | .propAssign (.identKey n) _ _ _ => n == segment
  | _ => false

/-- Property scan loop of `processRouterSegment`: first matching
property wins; shorthand and spread entries never match. -/
def findMatchingProp (props : List ObjProp) (segment : String) : Option ObjProp :=
  props.find? (matchesSegB segment)

/-- Embeds `Navigator.processRouterSegment`.  A matched property whose
value is neither an identifier nor a call expression hits the loop's
`break` and yields null. -/
def processRouterSegment (env : NavEnv) (cur : LocDecl) (segment : String)
    (isLast : Bool) : StepOutcome :=
  match cur.decl.initializer with
  | none => .notFound
  | some init =>
    match routesObjectOf init with
    | none => .notFound
    | some props =>
      match findMatchingProp props segment with
      | some (.propAssign _ (.ident idName) _ _) =>
        handleIdentifierProperty env idName segment isLast cur.sf
      | some (.propAssign _ (.call f args) ps pe) =>
        handleInlineProcedure cur.sf (.call f args) segment isLast ps pe
      | some _ => .notFound
      | none => .notFound

/-- Router symbol as consumed by `navigateRouterPath`: only the
`valueDeclaration` field is read. -/
structure NavSymbol where
  valueDeclaration : Option LocDecl

/-- Name used for the returned definition:
`pathSegments[pathSegments.length - 1] || "router"` (an empty last
segment is falsy and also falls back to "router"). -/
def lastNameOf (segs : List String) : String :=
  match segs.getLast? with
  | none => "router"
  | some s => if s == "" then "router" else s

/-- Segment loop of `navigateRouterPath`: a definition returns, a next
declaration continues, a null step result breaks and returns the current
declaration's location, and a thrown exception unwinds to the catch
block (null overall). -/
def navLoop (env : NavEnv) (lastName : String) (cur : LocDecl) :
    List String → Option DefinitionInfo
  | [] => some (createDefinitionFromDeclaration cur.sf cur.decl lastName)
  | seg :: rest =>
    match processRouterSegment env cur seg rest.isEmpty with
    | .definition d => some d
    | .nextDecl nd => navLoop env lastName nd rest
    | .notFound => some (createDefinitionFromDeclaration cur.sf cur.decl lastName)
    | .thrown => none

/-- Embeds `Navigator.navigateRouterPath`. -/
def navigateRouterPath (env : NavEnv) (sym : NavSymbol) (segs : List String) :
    Option DefinitionInfo :=
  match sym.valueDeclaration with
  | none => none
  | some root => navLoop env (lastNameOf segs) root segs

/-- Chain of successful non-terminal steps: from `cur`, each listed
segment resolves through `processRouterSegment` to a `nextDecl`,
finishing at the final declaration. -/
def chainNext (env : NavEnv) (cur : LocDecl) : List String → LocDecl → Prop
  | [], final => cur = final
  | s :: rest, final =>
    ∃ mid, processRouterSegment env cur s false = .nextDecl mid ∧
      chainNext env mid rest final

end Navigator

/-!
TypeResolver model (explicit mode).

Embeds `TypeResolver.extractRouterType` and
`TypeResolver.findRouterVariable` of `src/type-resolver.ts` (the
configured-router-location version).  The server host and program are
abstracted: `fileExists`/`readFile`/`createSourceFile` become fields of
`THost`, `program.getSourceFile` and the compiler-options directory
become fields of `ProgramM`, and `typeChecker.getSymbolAtLocation` is a
parameter; when it yields nothing, the code builds a pseudo-symbol, so
the search result always produces a symbol.  The surrounding try/catch
never propagates an exception, which the embedding reflects by being a
total function into `Option`.
-/

namespace TypeResolver

/-- Configured router location (`router.filePath` / `router.variableName`). -/
structure RouterConfig where
  filePath : String
  variableName : String
  deriving DecidableEq, Repr

/-- Server host operations used by `extractRouterType`. -/
structure THost where
  fileExists : String → Bool
  readFile : String → Option String
  parseFile : String → String → SourceFile

/-- Program operations used by `extractRouterType`. -/
structure ProgramM where
  configFilePath : Option String
  currentDirectory : String
  getSourceFile : String → Option SourceFile

/-- Node kinds `findRouterVariable` can match: a variable declaration,
an export assignment, or a named-export specifier. -/
inductive FoundNode where
  | varDeclNode (d : VarDecl)
  | exportAssignNode (e : Expr)
  | exportSpecNode (name : String) (propertyName : Option String)

/-- Symbol as produced by `findRouterVariable`: either the checker's
symbol or a synthesized pseudo-symbol over the found node. -/
structure TSymbol where
  name : String
  isPseudo : Bool
  node : FoundNode

/-- Result of `extractRouterType`. -/
structure RouterTypeInfo where
  routerSymbol : TSymbol
  routerFile : String

/-- Exported name of a named-export element:
`element.name?.text || element.propertyName?.text` (an empty name is
falsy and falls through to the property name). -/
def exportedNameOf (el : ExportElem) : String :=
  if el.name == "" then
    match el.propertyName with
    | some p => p
    | none => ""
  else el.name

/-- Visit loop of `findRouterVariable`: first statement-order match of a
variable declaration, a non-equals export assignment of the bare
identifier, or a named-export element with the wanted name. -/
def findRouterVariableNode (sf : SourceFile) (variableName : String) :
    Option FoundNode :=
  listFirstSome sf.stmts fun st =>
    match st with
    | .varStmt _ decls =>
      (decls.find? (fun d => d.name == variableName)).map .varDeclNode
    | .exportAssignStmt isEq e =>
      if isEq then none
      else
        match e with
        | .ident n => if n == variableName then some (.exportAssignNode e) else none
        | _ => none
    | .exportNamedStmt elems =>
      (elems.find? (fun el => exportedNameOf el == variableName)).map
        (fun el => .exportSpecNode el.name el.propertyName)
    | _ => none

/-- Directory against which a relative router path resolves: the
directory of the compiler options' config file, else the program's
current directory. -/
def configDirOf (prog : ProgramM) : String :=
  match prog.configFilePath with
  | some cf => dirnameOf cf
  | none => prog.currentDirectory

/-- Resolved router path: absolute paths pass through, relative ones
resolve against the config directory. -/
def resolvedRouterPath (prog : ProgramM) (rc : RouterConfig) : String :=
  if isAbsolutePath rc.filePath then rc.filePath
  else resolveRel (configDirOf prog) rc.filePath

/-- Source-file acquisition step of `extractRouterType`: the program's
file if present, else an existence check, a read (an unreadable or empty
file fails), and a standalone parse. -/
def acquireRouterFile (host : THost) (prog : ProgramM) (routerPath : String) :
    Option SourceFile :=
  match prog.getSourceFile routerPath with
  | some sf => some sf
  | none =>
    if host.fileExists routerPath then
      match host.readFile routerPath with
      | none => none
      | some content =>
        if content == "" then none
        else some (host.parseFile routerPath content)
    else none

/-- Embeds `TypeResolver.extractRouterType` given the configured router
location; `checkerSym` stands for `typeChecker.getSymbolAtLocation`. -/
def extractRouterType (host : THost) (prog : ProgramM) (cfg : Option RouterConfig)
    (checkerSym : FoundNode → Option TSymbol) : Option RouterTypeInfo :=
  match cfg with
  | none => none
  | some rc =>
    let routerPath := resolvedRouterPath prog rc
    match acquireRouterFile host prog routerPath with
    | none => none
    | some rsf =>
      match findRouterVariableNode rsf rc.variableName with
      | none => none
      | some node =>
        let sym :=
          match checkerSym node with
          | some s => s
          | none => { name := rc.variableName, isPseudo := true, node := node }
        some { routerSymbol := sym, routerFile := routerPath }

end TypeResolver

/-!
NavigationCache model.

Embeds the `NavigationCache` class of `src/cache.ts`.  The procedure
mapping payload is a list of path/target pairs; only the `fileName`
field of each target is consulted by the cache.  `Date.now()` becomes an
explicit `now : Nat`, `fs.readFileSync` becomes `readF : String →
Option String` (with `none` for a read that throws), and the md5 digest
becomes an explicit `hash : String → String` parameter.
-/

namespace NavigationCache

/-- The part of a `NavigationTarget` the cache reads. -/
structure CTarget where
  fileName : String
  deriving DecidableEq, Repr

/-- Procedure mapping payload: dotted path keys with their targets. -/
abbrev CMapping : Type := List (String × CTarget)

/-- Cache state: stored mapping, last update time, configured timeout
and the tracked file-name/hash pairs. -/
structure CacheState where
  cache : Option CMapping
  lastUpdate : Nat
  cacheTimeout : Nat
  fileHashes : List (String × String)

/-- Distinct file names of a mapping's targets, in first-occurrence
order: models the `Set` built by `NavigationCache.set` (only the
membership set matters downstream). -/
def uniqueFiles (m : CMapping) : List String :=
  (m.map (fun kv => kv.2.fileName)).dedup

/-- Embeds `NavigationCache.set`: stores the mapping, stamps the time,
and replaces the tracked hashes with one entry per distinct readable
file of the mapping (a file whose read throws is skipped). -/
def set (hash : String → String) (readF : String → Option String) (now : Nat)
    (st : CacheState) (m : CMapping) : CacheState :=
  { st with
    cache := some m
    lastUpdate := now
    fileHashes :=
      (uniqueFiles m).filterMap fun f =>
        match readF f with
        | some content => some (f, hash content)
        | none => none }

/-- Embeds `NavigationCache.isValid`: false when empty, false when the
timeout has elapsed, false when any tracked file is unreadable or hashes
differently, true otherwise. -/
def isValid (hash : String → String) (readF : String → Option String) (now : Nat)
    (st : CacheState) : Bool :=
  match st.cache with
  | none => false
  | some _ =>
    if st.cacheTimeout ≤ now - st.lastUpdate then false
    else
      st.fileHashes.all fun fh =>
        match readF fh.1 with
        | none => false
        | some content => hash content == fh.2

/-- Embeds `NavigationCache.get`. -/
def get (hash : String → String) (readF : String → Option String) (now : Nat)
    (st : CacheState) : Option CMapping :=
  if isValid hash readF now st then st.cache else none

/-- Embeds `NavigationCache.clear`. -/
def clear (st : CacheState) : CacheState :=
  { st with cache := none, lastUpdate := 0, fileHashes := [] }

end NavigationCache

/-!
AstScanner model (batch mode).

Embeds `AstScanner.analyzeRouter`, `AstScanner.isRouterDeclaration`,
the inline base-procedure chain walk, and
`AstScanner.buildRouterHierarchy` of `src/ast-scanner.ts` (the ts-morph
based scanner).  The ts-morph project is abstracted as `ScanEnv`: its
parsed files, its module resolution (`getModuleSpecifierSourceFile`) and
its position-to-line/column conversion (`getLineAndColumnAtPos`).

The recursion guard `depth > (config.maxDepth || 10)` is embedded as a
fuel parameter with `fuel = effMaxDepth + 1 - depth`: fuel zero is
exactly `depth > effMaxDepth`, and the recursive call at `depth + 1`
becomes a call at `fuel - 1`.  `analyzeRouterAtDepth` restores the
depth-based interface.  The procedure index built by
`scanProceduresSync` enters `analyzeRouter` as the `procs` parameter,
exactly as in the source; its internals are not needed by the
properties proved here.
-/

namespace AstScanner

/-- The `type` discriminator of a batch `NavigationTarget`. -/
inductive TargetType where
  | procedure
  | inlineProcedure
  | router
  deriving DecidableEq, Repr

/-- Batch navigation target (`src/types.ts` NavigationTarget). -/
structure NavigationTarget where
  fileName : String
  line : Nat
  column : Nat
  position : Nat
  tlength : Nat
  type : TargetType
  procedureName : Option String := none
  deriving DecidableEq, Repr

/-- Procedure mapping: dotted path keys to targets, with JavaScript
object semantics (point lookup and point update). -/
def Mapping : Type := String → Option NavigationTarget

/-- Empty mapping. -/
def memptyM : Mapping := fun _ => none

/-- Models `mapping[k] = v`. -/
def mset (m : Mapping) (k : String) (v : NavigationTarget) : Mapping :=
  fun k2 => if k2 = k then some v else m k2

/-- Abstracted ts-morph project: parsed files, module resolution and
position-to-line/column conversion. -/
structure ScanEnv where
  files : List SourceFile
  modResolve : String → String → Option SourceFile
  lineCol : String → Nat → Nat × Nat

/-- Models `project.getSourceFile(path)`. -/
def getSourceFileAt (env : ScanEnv) (p : String) : Option SourceFile :=
  env.files.find? (fun sf => sf.fileName == p)

/-- Models ts-morph `sourceFile.getVariableDeclaration(name)`: the first
variable declaration with that name. -/
def getVariableDeclOf (sf : SourceFile) (name : String) : Option VarDecl :=
  listFirstSome sf.stmts fun st =>
    match st with
    | .varStmt _ decls => decls.find? (fun d => d.name == name)
    | _ => none

/-- Models the scanner's import search: module specifier of the first
declaration of an import one of whose named imports has the given name. -/
def findImportSpecFor (sf : SourceFile) (name : String) : Option String :=
  listFirstSome sf.stmts fun st =>
    match st with
    | .importStmt names spec => if names.contains name then some spec else none
    | _ => none

/-- Scanner callee test: `expr.getText() === "router" ||
expr.getText().endsWith(".router")`. -/
def scannerCalleeMatches (callee : Expr) : Bool :=
  callee.getText == "router" || strEndsWith callee.getText (".router")

mutual
/-- Call expressions inside `e` including `e` itself, in pre-order:
support for `getDescendantsOfKind(SyntaxKind.CallExpression)`. -/
def callsOf (e : Expr) : List Expr :=
  match e with
  | .call f args => Expr.call f args :: (callsOf f ++ callsOfList args)
  | .propAccess o _ => callsOf o
  | .objectLit props => callsOfProps props
  | .satisfiesExpr inner _ => callsOf inner
  | .ident _ => []
  | .rawExpr _ => []

/-- Call expressions of a list of children, in order. -/
def callsOfList : List Expr → List Expr
  | [] => []
  | e :: rest => callsOf e ++ callsOfList rest

/-- Call expressions inside object-literal properties, in order. -/
def callsOfProps : List ObjProp → List Expr
  | [] => []
  | p :: rest => callsOfProp p ++ callsOfProps rest

/-- Call expressions inside one object-literal property. -/
def callsOfProp : ObjProp → List Expr
  | .propAssign _ v _ _ => callsOf v
  | .shorthand _ => []
  | .spread e => callsOf e
end

/-- Call-expression descendants of `e`, excluding `e` itself: models
`e.getDescendantsOfKind(SyntaxKind.CallExpression)`. -/
def descCalls (e : Expr) : List Expr :=
  match e with
  | .call f args => callsOf f ++ callsOfList args
  | .propAccess o _ => callsOf o
  | .objectLit props => callsOfProps props
  | .satisfiesExpr inner _ => callsOf inner
  | .ident _ => []
  | .rawExpr _ => []

/-- Router-call search of `analyzeRouter`: the initializer itself only
when it is a call with callee text exactly "router", else the first
call descendant whose callee text is "router" or ends in ".router". -/
def scannerFindRouterCall (init : Expr) : Option Expr :=
  match init with
  | .call f args =>
    if f.getText == "router" then some (.call f args)
    else
      (descCalls (.call f args)).find? fun c =>
        match c with
        | .call cal _ => scannerCalleeMatches cal
        | _ => false
  | _ =>
    (descCalls init).find? fun c =>
      match c with
      | .call cal _ => scannerCalleeMatches cal
      | _ => false

/-- Embeds `AstScanner.isRouterDeclaration`: a direct matching router
call, or a matching call anywhere among the initializer's call
descendants. -/
def isRouterDeclScanner (d : VarDecl) : Bool :=
  match d.initializer with
  | none => false
  | some init =>
    (match init with
     | .call f _ => scannerCalleeMatches f
     | _ => false) ||
      (descCalls init).any fun c =>
        match c with
        | .call cal _ => scannerCalleeMatches cal
        | _ => false

/-- Inline base-procedure chain walk of `analyzeRouter`: peels method
calls off the call chain until the base identifier surfaces. -/
def baseProcOfChain : Expr → Option String
  | .call (.propAccess o _) _ => baseProcOfChain o
  | .call (.ident n) _ => some n
  | .ident n => some n
  | _ => none

/-- Entries-object extraction of `analyzeRouter`: the found router
call's first argument when it is an object literal. -/
def routerEntriesOf (d : VarDecl) : Option (List ObjProp) :=
  match d.initializer with
  | none => none
  | some init =>
    match scannerFindRouterCall init with
    | some (.call _ (.objectLit props :: _)) => some props
    | _ => none

/-- Lookup in the procedure index built by `scanProceduresSync`. -/
def lookupProc (procs : List (String × NavigationTarget)) (v : String) :
    Option NavigationTarget :=
  (procs.find? (fun kv => kv.1 == v)).map (fun kv => kv.2)

/-- Import-following step for a nested router: the first import binding
the identifier, resolved to its source file, searched for a variable
declaration of the same name. -/
def resolveNestedRouter (env : ScanEnv) (sf : SourceFile) (v : String) :
    Option (SourceFile × VarDecl) :=
  match findImportSpecFor sf v with
  | none => none
  | some spec =>
    match env.modResolve sf.fileName spec with
    | none => none
    | some impSf =>
      match getVariableDeclOf impSf v with
      | none => none
      | some d => some (impSf, d)

/-- Builds the mapping key: `apiVariableName + "." + path.join(".")`. -/
def mkKey (apiVar : String) (p : List String) : String :=
  apiVar ++ "." ++ dotJoin p

/-- Router target recorded before a nested router is recursed into. -/
def routerTargetOf (env : ScanEnv) (sf : SourceFile) (d : VarDecl) :
    NavigationTarget :=
  { fileName := sf.fileName
    line := (env.lineCol sf.fileName d.vstart).1
    column := (env.lineCol sf.fileName d.vstart).2
    position := d.vstart
    tlength := d.vstop - d.vstart
    type := .router }

/-- Inline-procedure target spanning the property assignment. -/
def inlineTargetOf (env : ScanEnv) (sf : SourceFile) (pstart pstop : Nat) :
    NavigationTarget :=
  { fileName := sf.fileName
    line := (env.lineCol sf.fileName pstart).1
    column := (env.lineCol sf.fileName pstart).2
    position := pstart
    tlength := pstop - pstart
    type := .inlineProcedure }

/-- Handling of a single route property, parameterized by the recursive
continuation `rec` (the `analyzeRouter` call at the next depth): a known
procedure identifier, a nested router reached through an import, or an
inline procedure chain. -/
def analyzeOnePropWith (rec : SourceFile → VarDecl → List String → Mapping → Mapping)
    (env : ScanEnv) (apiVar : String) (procs : List (String × NavigationTarget))
    (sf : SourceFile) (currentPath : List String) (p : ObjProp) (mapping : Mapping) :
    Mapping :=
  match p with
  | .propAssign key (.ident v) _ _ =>
    (match lookupProc procs v with
     | some t => mset mapping (mkKey apiVar (currentPath ++ [key.text])) t
     | none =>
       match resolveNestedRouter env sf v with
       | some (impSf, d) =>
         if isRouterDeclScanner d then
           rec impSf d (currentPath ++ [key.text])
             (mset mapping (mkKey apiVar (currentPath ++ [key.text]))
               (routerTargetOf env impSf d))
         else mapping
       | none => mapping)
  | .propAssign key (.call f args) ps pe =>
    (match baseProcOfChain (.call f args) with
     | some b =>
       if strEndsWith b ("Procedure") then
         mset mapping (mkKey apiVar (currentPath ++ [key.text]))
           (inlineTargetOf env sf ps pe)
       else mapping
     | none => mapping)
  | _ => mapping

/-- The `forEach` over the entries object's properties, parameterized by
the recursive continuation. -/
def analyzePropsWith (rec : SourceFile → VarDecl → List String → Mapping → Mapping)
    (env : ScanEnv) (apiVar : String) (procs : List (String × NavigationTarget))
    (sf : SourceFile) (currentPath : List String) :
    List ObjProp → Mapping → Mapping
  | [], mapping => mapping
  | p :: rest, mapping =>
    analyzePropsWith rec env apiVar procs sf currentPath rest
      (analyzeOnePropWith rec env apiVar procs sf currentPath p mapping)

/-- Embeds `AstScanner.analyzeRouter` with the depth guard expressed as
fuel (`fuel = effMaxDepth + 1 - depth`; zero fuel is `depth > maxDepth`,
which aborts the branch with the mapping unchanged, and the recursive
call at `depth + 1` runs with `fuel - 1`). -/
def analyzeRouter (env : ScanEnv) (apiVar : String)
    (procs : List (String × NavigationTarget)) :
    Nat → SourceFile → VarDecl → List String → Mapping → Mapping
  | 0 => fun _ _ _ mapping => mapping
  | fuel + 1 => fun sf routerNode currentPath mapping =>
    match routerEntriesOf routerNode with
    | none => mapping
    | some props =>
      analyzePropsWith (analyzeRouter env apiVar procs fuel) env apiVar procs sf
        currentPath props mapping

/-- Effective maximum depth: `config.maxDepth || 10` (absent or zero
falls back to ten). -/
def effMaxDepth (maxDepth : Option Nat) : Nat :=
  match maxDepth with
  | none => 10
  | some 0 => 10
  | some d => d

/-- Depth-based interface of `analyzeRouter`: the call made at `depth`. -/
def analyzeRouterAtDepth (env : ScanEnv) (apiVar : String)
    (procs : List (String × NavigationTarget)) (sf : SourceFile)
    (routerNode : VarDecl) (currentPath : List String) (mapping : Mapping)
    (maxDepth : Option Nat) (depth : Nat) : Mapping :=
  analyzeRouter env apiVar procs (effMaxDepth maxDepth + 1 - depth) sf routerNode
    currentPath mapping

/-- Main router name with default: `config.mainRouterName || "appRouter"`
(an empty configured name is falsy and falls back). -/
def mainNameOf (mainRouterName : Option String) : String :=
  match mainRouterName with
  | none => "appRouter"
  | some n => if n == "" then "appRouter" else n

/-- Embeds `AstScanner.buildRouterHierarchy`: finds the main router file
(`index.ts` under the router root), the main router variable
(`config.mainRouterName || "appRouter"`), and runs `analyzeRouter` from
depth zero on an empty mapping. -/
def buildRouterHierarchy (env : ScanEnv) (apiVar : String)
    (procs : List (String × NavigationTarget)) (routerRoot : String)
    (mainRouterName : Option String) (maxDepth : Option Nat) : Mapping :=
  match getSourceFileAt env (routerRoot ++ "/index.ts") with
  | none => memptyM
  | some mainSf =>
    match getVariableDeclOf mainSf (mainNameOf mainRouterName) with
    | none => memptyM
    | some mainDecl =>
      analyzeRouterAtDepth env apiVar procs mainSf mainDecl [] memptyM maxDepth 0

end AstScanner

/-!
Batch-mode lookup model.

Embeds the mapping-lookup portion of the plugin's overridden
`getDefinitionAndBoundSpan` (the block starting at
`const target = mapping[targetPath]`): on a hit the plugin builds its
own definition from the target; on a miss it walks the dotted path's
proper prefixes from longest to shortest looking for the closest parent
entry, and — whether or not a parent candidate is found — returns the
host language service's default response.
-/

namespace BatchLookup

open AstScanner

/-- Outcome of the lookup: the plugin navigates using a found target, or
it defers to the host's default `getDefinitionAndBoundSpan` response. -/
inductive BatchOutcome where
  | pluginNavigation (t : NavigationTarget)
  | hostDefault
  deriving DecidableEq, Repr

/-- Descending prefix loop `for (let i = parts.length - 1; i > 0; i--)`:
the first prefix of length `i` present in the mapping, with its key. -/
def findClosestParentGo (m : Mapping) (parts : List String) :
    Nat → Option (String × NavigationTarget)
  | 0 => none
  | j + 1 =>
    match m (dotJoin (parts.take (j + 1))) with
    | some c => some (dotJoin (parts.take (j + 1)), c)
    | none => findClosestParentGo m parts j

/-- The closest-parent search of the batch fallback. -/
def findClosestParent (m : Mapping) (parts : List String) :
    Option (String × NavigationTarget) :=
  findClosestParentGo m parts (parts.length - 1)

/-- Embeds the lookup block: a present target yields plugin navigation;
a missing target triggers the parent search, whose candidate is logged
("Using parent navigation") and then discarded — both branches return
the host default. -/
def batchLookupOutcome (m : Mapping) (targetPath : String) : BatchOutcome :=
  match m targetPath with
  | some t => .pluginNavigation t
  | none =>
    match findClosestParent m (strSplitOnChar '.' targetPath) with
    | some _ => .hostDefault
    | none => .hostDefault

end BatchLookup

/-!
Cache lemmas and claims C2 and C9.
-/

namespace NavigationCache

/-- A tracked hash entry records the hash of the content the file had at
set time. -/
theorem fileHashes_spec (hash : String → String) (readF0 : String → Option String)
    (t0 : Nat) (st0 : CacheState) (m : CMapping) (f h : String)
    (hmem : (f, h) ∈ (set hash readF0 t0 st0 m).fileHashes) :
    f ∈ uniqueFiles m ∧ ∃ c, readF0 f = some c ∧ h = hash c := by
  simp only [set, List.mem_filterMap] at hmem
  obtain ⟨a, ha, heq⟩ := hmem
  constructor
  · cases hr : readF0 a with
    | none => rw [hr] at heq; cases heq
    | some c => rw [hr] at heq; cases heq; exact ha
  · cases hr : readF0 a with
    | none => rw [hr] at heq; cases heq
    | some c =>
      rw [hr] at heq
      cases heq
      exact ⟨c, hr, rfl⟩

/-- Conversely, every readable file of the mapping is tracked. -/
theorem fileHashes_complete (hash : String → String) (readF0 : String → Option String)
    (t0 : Nat) (st0 : CacheState) (m : CMapping) (f c : String)
    (hf : f ∈ uniqueFiles m) (hr : readF0 f = some c) :
    (f, hash c) ∈ (set hash readF0 t0 st0 m).fileHashes := by
  simp only [set, List.mem_filterMap]
  exact ⟨f, hf, by rw [hr]⟩

end NavigationCache

namespace NavigationCache

/-- Validity after `set` holds exactly when the timeout has not elapsed
and every tracked file still reads back with its recorded hash. -/
theorem isValid_set_iff (hash : String → String)
    (readF0 readF1 : String → Option String) (t0 t1 : Nat) (st0 : CacheState)
    (m : CMapping) :
    isValid hash readF1 t1 (set hash readF0 t0 st0 m) = true ↔
      (t1 - t0 < st0.cacheTimeout ∧
        ∀ f h, (f, h) ∈ (set hash readF0 t0 st0 m).fileHashes →
          ∃ c, readF1 f = some c ∧ hash c = h) := by
  simp only [isValid, set]
  by_cases hto : st0.cacheTimeout ≤ t1 - t0
  · rw [if_pos hto]
    constructor
    · intro h; exact absurd h (by simp)
    · rintro ⟨hlt, -⟩; omega
  · rw [if_neg hto]
    rw [List.all_eq_true]
    constructor
    · intro hall
      refine ⟨by omega, ?_⟩
      intro f h hm
      have hfh := hall (f, h) hm
      revert hfh
      cases hr : readF1 f with
      | none => intro hfh; exact absurd hfh (by simp)
      | some c =>
        intro hfh
        exact ⟨c, rfl, by simpa using hfh⟩
    · rintro ⟨-, hall⟩ fh hm
      obtain ⟨c, hr, hh⟩ := hall fh.1 fh.2 hm
      simp [hr, hh]

end NavigationCache

/-- Claim C2: after `set(mapping)`, `get()` returns the stored mapping
while the timeout has not elapsed and every tracked file still hashes as
recorded; once the timeout elapses, or a tracked file's content hash
changes, or a tracked file becomes unreadable, `isValid()` reports
invalid and `get()` returns null — in particular a content change
invalidates even though the timeout has not elapsed. -/
theorem C2_cache_correctness (hash : String → String)
    (readF0 readF1 : String → Option String) (t0 t1 : Nat) (st0 : NavigationCache.CacheState)
    (m : NavigationCache.CMapping) :
    (t1 - t0 < st0.cacheTimeout →
      (∀ f h, (f, h) ∈ (NavigationCache.set hash readF0 t0 st0 m).fileHashes →
        ∃ c, readF1 f = some c ∧ hash c = h) →
      NavigationCache.get hash readF1 t1 (NavigationCache.set hash readF0 t0 st0 m) = some m)
    ∧ (st0.cacheTimeout ≤ t1 - t0 →
      NavigationCache.get hash readF1 t1 (NavigationCache.set hash readF0 t0 st0 m) = none)
    ∧ (∀ f c0 c1, (f, hash c0) ∈ (NavigationCache.set hash readF0 t0 st0 m).fileHashes →
        readF1 f = some c1 → hash c1 ≠ hash c0 →
        NavigationCache.isValid hash readF1 t1 (NavigationCache.set hash readF0 t0 st0 m) = false
          ∧ NavigationCache.get hash readF1 t1 (NavigationCache.set hash readF0 t0 st0 m) = none)
    ∧ (∀ f h, (f, h) ∈ (NavigationCache.set hash readF0 t0 st0 m).fileHashes →
        readF1 f = none →
        NavigationCache.get hash readF1 t1 (NavigationCache.set hash readF0 t0 st0 m) = none) := by
  refine ⟨?_, ?_, ?_, ?_⟩
  · intro hlt hall
    have hv : NavigationCache.isValid hash readF1 t1 (NavigationCache.set hash readF0 t0 st0 m) = true :=
      (NavigationCache.isValid_set_iff hash readF0 readF1 t0 t1 st0 m).2 ⟨hlt, hall⟩
    simp only [NavigationCache.get]
    rw [hv]
    simp [NavigationCache.set]
  · intro hge
    cases hv : NavigationCache.isValid hash readF1 t1 (NavigationCache.set hash readF0 t0 st0 m) with
    | true =>
      obtain ⟨hlt, -⟩ := (NavigationCache.isValid_set_iff hash readF0 readF1 t0 t1 st0 m).1 hv
      omega
    | false =>
      simp only [NavigationCache.get]
      rw [hv]
      simp
  · intro f c0 c1 hmem hr hne
    have hv : NavigationCache.isValid hash readF1 t1 (NavigationCache.set hash readF0 t0 st0 m) = false := by
      cases hv : NavigationCache.isValid hash readF1 t1 (NavigationCache.set hash readF0 t0 st0 m) with
      | true =>
        obtain ⟨-, hall⟩ := (NavigationCache.isValid_set_iff hash readF0 readF1 t0 t1 st0 m).1 hv
        obtain ⟨c, hr2, hh⟩ := hall f (hash c0) hmem
        rw [hr] at hr2
        cases hr2
        exact absurd hh hne
      | false => rfl
    refine ⟨hv, ?_⟩
    simp only [NavigationCache.get]
    rw [hv]
    simp
  · intro f h hmem hr
    cases hv : NavigationCache.isValid hash readF1 t1 (NavigationCache.set hash readF0 t0 st0 m) with
    | true =>
      obtain ⟨-, hall⟩ := (NavigationCache.isValid_set_iff hash readF0 readF1 t0 t1 st0 m).1 hv
      obtain ⟨c, hr2, -⟩ := hall f h hmem
      rw [hr] at hr2
      cases hr2
    | false =>
      simp only [NavigationCache.get]
      rw [hv]
      simp

/-- Claim C9: the tracked hash set after `set(mapping)` is exactly the
distinct `fileName` values of the mapping's targets minus any file
unreadable at set time; `isValid()`/`get()` depend only on the clock and
the contents of tracked files, so changing any untracked file never
invalidates the cache before the timeout elapses. -/
theorem C9_cache_tracked_files (hash : String → String)
    (readF0 : String → Option String) (t0 : Nat) (st0 : NavigationCache.CacheState)
    (m : NavigationCache.CMapping) :
    (∀ f, (∃ h, (f, h) ∈ (NavigationCache.set hash readF0 t0 st0 m).fileHashes) ↔
      ((∃ kv ∈ m, kv.2.fileName = f) ∧ ∃ c, readF0 f = some c))
    ∧ (∀ readF1 readF2 t1,
        (∀ f h, (f, h) ∈ (NavigationCache.set hash readF0 t0 st0 m).fileHashes →
          readF1 f = readF2 f) →
        NavigationCache.isValid hash readF1 t1 (NavigationCache.set hash readF0 t0 st0 m)
            = NavigationCache.isValid hash readF2 t1 (NavigationCache.set hash readF0 t0 st0 m)
          ∧ NavigationCache.get hash readF1 t1 (NavigationCache.set hash readF0 t0 st0 m)
            = NavigationCache.get hash readF2 t1 (NavigationCache.set hash readF0 t0 st0 m))
    ∧ (∀ readF1 t1, t1 - t0 < st0.cacheTimeout →
        (∀ f h, (f, h) ∈ (NavigationCache.set hash readF0 t0 st0 m).fileHashes →
          readF1 f = readF0 f) →
        NavigationCache.get hash readF1 t1 (NavigationCache.set hash readF0 t0 st0 m) = some m) := by
  refine ⟨?_, ?_, ?_⟩
  · intro f
    constructor
    · rintro ⟨h, hm⟩
      obtain ⟨hu, c, hc, -⟩ := NavigationCache.fileHashes_spec hash readF0 t0 st0 m f h hm
      refine ⟨?_, c, hc⟩
      simpa [NavigationCache.uniqueFiles, List.mem_dedup, List.mem_map] using hu
    · rintro ⟨⟨kv, hkv, hf⟩, c, hc⟩
      refine ⟨hash c, NavigationCache.fileHashes_complete hash readF0 t0 st0 m f c ?_ hc⟩
      simp only [NavigationCache.uniqueFiles, List.mem_dedup, List.mem_map]
      exact ⟨kv, hkv, hf⟩
  · intro readF1 readF2 t1 hagree
    have hiff :
        NavigationCache.isValid hash readF1 t1 (NavigationCache.set hash readF0 t0 st0 m) = true ↔
        NavigationCache.isValid hash readF2 t1 (NavigationCache.set hash readF0 t0 st0 m) = true := by
      rw [NavigationCache.isValid_set_iff, NavigationCache.isValid_set_iff]
      constructor <;> rintro ⟨hlt, hall⟩ <;> refine ⟨hlt, ?_⟩ <;> intro f h hm
      · rw [← hagree f h hm]; exact hall f h hm
      · rw [hagree f h hm]; exact hall f h hm
    have heq :
        NavigationCache.isValid hash readF1 t1 (NavigationCache.set hash readF0 t0 st0 m)
          = NavigationCache.isValid hash readF2 t1 (NavigationCache.set hash readF0 t0 st0 m) := by
      cases h1 : NavigationCache.isValid hash readF1 t1 (NavigationCache.set hash readF0 t0 st0 m) <;>
        cases h2 : NavigationCache.isValid hash readF2 t1 (NavigationCache.set hash readF0 t0 st0 m) <;>
          simp_all
    refine ⟨heq, ?_⟩
    simp only [NavigationCache.get, heq]
  · intro readF1 t1 hlt hagree
    have hv : NavigationCache.isValid hash readF1 t1 (NavigationCache.set hash readF0 t0 st0 m) = true := by
      rw [NavigationCache.isValid_set_iff]
      refine ⟨hlt, ?_⟩
      intro f h hm
      obtain ⟨-, c, hc, hh⟩ := NavigationCache.fileHashes_spec hash readF0 t0 st0 m f h hm
      exact ⟨c, by rw [hagree f h hm, hc], hh.symm⟩
    simp only [NavigationCache.get]
    rw [hv]
    simp [NavigationCache.set]

/-- Concrete fixtures for the cache witnesses. -/
def wHash : String → String := fun s => s

/-- File system at set time: one readable tracked file. -/
def wRead0 : String → Option String := fun f =>
  if f = "/app/a.ts" then some ("A") else none

/-- File system where the tracked file's content changed. -/
def wRead2 : String → Option String := fun f =>
  if f = "/app/a.ts" then some ("B") else none

/-- File system where only an untracked file changed. -/
def wRead3 : String → Option String := fun f =>
  if f = "/app/other.ts" then some ("ZZZ") else wRead0 f

/-- Initial cache state with a 1000ms timeout. -/
def wSt0 : NavigationCache.CacheState :=
  { cache := none, lastUpdate := 0, cacheTimeout := 1000, fileHashes := [] }

/-- Stored mapping with a single target in the tracked file. -/
def wM : NavigationCache.CMapping := [("api.x", { fileName := "/app/a.ts" })]

/-- The tracked hashes of the witness state. -/
theorem wFileHashes_eq :
    (NavigationCache.set wHash wRead0 0 wSt0 wM).fileHashes = [("/app/a.ts", "A")] := by
  rfl

/-- Witness for C2: with the file unchanged `get` returns the stored
mapping before the timeout; after changing the tracked file's content
`isValid` is false and `get` is null even though the timeout has not
elapsed. -/
theorem C2_cache_correctness_witness :
    NavigationCache.get wHash wRead0 10 (NavigationCache.set wHash wRead0 0 wSt0 wM) = some wM
    ∧ NavigationCache.isValid wHash wRead2 10 (NavigationCache.set wHash wRead0 0 wSt0 wM) = false
    ∧ NavigationCache.get wHash wRead2 10 (NavigationCache.set wHash wRead0 0 wSt0 wM) = none := by
  refine ⟨?_, ?_⟩
  · refine (C2_cache_correctness wHash wRead0 wRead0 0 10 wSt0 wM).1 (by decide) ?_
    intro f h hm
    rw [wFileHashes_eq] at hm
    simp only [List.mem_singleton, Prod.mk.injEq] at hm
    obtain ⟨hf, hh⟩ := hm
    subst hf; subst hh
    exact ⟨"A", rfl, rfl⟩
  · exact (C2_cache_correctness wHash wRead0 wRead2 0 10 wSt0 wM).2.2.1 "/app/a.ts" "A" "B"
      (by rw [wFileHashes_eq]; decide) rfl (by decide)

/-- Witness for C9: changing only an untracked file leaves `get`
returning the stored mapping, and the tracked set contains exactly the
mapping's file. -/
theorem C9_cache_tracked_files_witness :
    NavigationCache.get wHash wRead3 10 (NavigationCache.set wHash wRead0 0 wSt0 wM) = some wM
    ∧ (∃ h, ("/app/a.ts", h) ∈ (NavigationCache.set wHash wRead0 0 wSt0 wM).fileHashes) := by
  refine ⟨?_, ?_⟩
  · refine (C9_cache_tracked_files wHash wRead0 0 wSt0 wM).2.2 wRead3 10 (by decide) ?_
    intro f h hm
    rw [wFileHashes_eq] at hm
    simp only [List.mem_singleton, Prod.mk.injEq] at hm
    obtain ⟨hf, -⟩ := hm
    subst hf
    rfl
  · exact ((C9_cache_tracked_files wHash wRead0 0 wSt0 wM).1 "/app/a.ts").2
      ⟨⟨("api.x", { fileName := "/app/a.ts" }), by decide, rfl⟩, ⟨"A", rfl⟩⟩

/-- Claim C6: the explicit-mode locator returns null whenever the
resolved router file is missing from the program and does not exist, is
unreadable or empty, or contains no variable declaration, export
assignment, or named export matching the configured name; on success it
returns a router symbol together with the resolved router path.  The
embedding is a total function into `Option`, reflecting that the
surrounding try/catch never lets an exception reach the caller. -/
theorem C6_extract_router_type (host : TypeResolver.THost) (prog : TypeResolver.ProgramM)
    (rc : TypeResolver.RouterConfig) (checkerSym : TypeResolver.FoundNode → Option TypeResolver.TSymbol) :
    (prog.getSourceFile (TypeResolver.resolvedRouterPath prog rc) = none →
      host.fileExists (TypeResolver.resolvedRouterPath prog rc) = false →
      TypeResolver.extractRouterType host prog (some rc) checkerSym = none)
    ∧ (prog.getSourceFile (TypeResolver.resolvedRouterPath prog rc) = none →
      host.readFile (TypeResolver.resolvedRouterPath prog rc) = none →
      TypeResolver.extractRouterType host prog (some rc) checkerSym = none)
    ∧ (prog.getSourceFile (TypeResolver.resolvedRouterPath prog rc) = none →
      host.readFile (TypeResolver.resolvedRouterPath prog rc) = some ("") →
      TypeResolver.extractRouterType host prog (some rc) checkerSym = none)
    ∧ (∀ rsf, TypeResolver.acquireRouterFile host prog (TypeResolver.resolvedRouterPath prog rc) = some rsf →
      TypeResolver.findRouterVariableNode rsf rc.variableName = none →
      TypeResolver.extractRouterType host prog (some rc) checkerSym = none)
    ∧ (∀ rsf node, TypeResolver.acquireRouterFile host prog (TypeResolver.resolvedRouterPath prog rc) = some rsf →
      TypeResolver.findRouterVariableNode rsf rc.variableName = some node →
      ∃ sym, TypeResolver.extractRouterType host prog (some rc) checkerSym =
        some { routerSymbol := sym, routerFile := TypeResolver.resolvedRouterPath prog rc }) := by
  refine ⟨?_, ?_, ?_, ?_, ?_⟩
  · intro hprog hex
    simp only [TypeResolver.extractRouterType, TypeResolver.acquireRouterFile, hprog, hex]
    simp
  · intro hprog hread
    simp only [TypeResolver.extractRouterType, TypeResolver.acquireRouterFile, hprog, hread]
    cases host.fileExists (TypeResolver.resolvedRouterPath prog rc) <;> simp
  · intro hprog hread
    simp only [TypeResolver.extractRouterType, TypeResolver.acquireRouterFile, hprog, hread]
    cases host.fileExists (TypeResolver.resolvedRouterPath prog rc) <;> simp
  · intro rsf hacq hfind
    simp only [TypeResolver.extractRouterType, hacq, hfind]
  · intro rsf node hacq hfind
    simp only [TypeResolver.extractRouterType, hacq, hfind]
    cases hcs : checkerSym node with
    | none => exact ⟨_, rfl⟩
    | some s => exact ⟨s, rfl⟩

/-- Fixture for the C6 witness: a router file containing the router
variable, and a host/program where only that file exists. -/
def c6File : SourceFile :=
  { fileName := "/repo/server/router.ts"
    stmts := [Stmt.varStmt true
      [{ name := "appRouter"
         initializer := some (Expr.call (Expr.ident "router") [Expr.objectLit []])
         vstart := 0
         vstop := 40 }]] }

/-- Host for the C6 witness. -/
def c6Host : TypeResolver.THost :=
  { fileExists := fun p => p = "/repo/server/router.ts"
    readFile := fun p => if p = "/repo/server/router.ts" then some ("export const appRouter = router(\x7b\x7d)") else none
    parseFile := fun _ _ => c6File }

/-- Program for the C6 witness: config file sits in `/repo`, the router
file is not part of the live program. -/
def c6Prog : TypeResolver.ProgramM :=
  { configFilePath := some ("/repo/tsconfig.json")
    currentDirectory := "/repo"
    getSourceFile := fun _ => none }

/-- Router config for the C6 witness, using a relative path. -/
def c6Config : TypeResolver.RouterConfig :=
  { filePath := "./server/router.ts", variableName := "appRouter" }

/-- Missing-name config for the C6 witness. -/
def c6ConfigBad : TypeResolver.RouterConfig :=
  { filePath := "./server/router.ts", variableName := "missingRouter" }

/-- Witness for C6: the locator succeeds on the configured name with the
resolved path, and returns null when the name is absent. -/
theorem C6_extract_router_type_witness :
    (∃ sym, TypeResolver.extractRouterType c6Host c6Prog (some c6Config) (fun _ => none) =
      some { routerSymbol := sym, routerFile := TypeResolver.resolvedRouterPath c6Prog c6Config })
    ∧ TypeResolver.extractRouterType c6Host c6Prog (some c6ConfigBad) (fun _ => none) = none := by
  constructor
  · exact (C6_extract_router_type c6Host c6Prog c6Config (fun _ => none)).2.2.2.2 c6File
      (TypeResolver.FoundNode.varDeclNode
        { name := "appRouter"
          initializer := some (Expr.call (Expr.ident "router") [Expr.objectLit []])
          vstart := 0
          vstop := 40 }) (by rfl) (by rfl)
  · exact (C6_extract_router_type c6Host c6Prog c6ConfigBad (fun _ => none)).2.2.2.1 c6File (by rfl) (by rfl)

/-!
Claim C5: the classifier rule for procedures.
-/

/-- Default router-registration function names
(`DEFAULT_PATTERNS.routerFunctions` in `src/config.ts`). -/
def defaultRouterFunctions : List String :=
  ["router", "createTRPCRouter", "createRouter", "t.router"]

/-- Initializer `t.query(f)` for the C5 counterexample: a builder-method
call with no router-registration call and no "Procedure" substring. -/
def c5Expr : Expr :=
  Expr.call (Expr.propAccess (Expr.ident "t") "query") [Expr.ident "f"]

/-- Declaration bound to `t.query(f)`. -/
def c5Decl : VarDecl :=
  { name := "getThing", initializer := some c5Expr, vstart := 0, vstop := 14 }

/-- Counterexample to claim C5 as stated: the initializer text
`t.query(f)` contains the procedure-builder call `.query` and contains
no call to a known router-registration function name, yet the
classifier does not return Procedure (the declaration fails
`isProcedureDeclaration`, so `handleIdentifierProperty` treats it as a
router) because the text lacks the additionally required substring
"Procedure". -/
theorem C5_counterexample :
    strIncludes c5Expr.getText (".query") = true
    ∧ (defaultRouterFunctions.all fun n => !(strIncludes c5Expr.getText (n ++ "("))) = true
    ∧ Navigator.isProcedureDeclaration c5Decl = false
    ∧ Navigator.classify c5Decl = Navigator.Classification.router := by
  refine ⟨by decide, by decide, by decide, by decide⟩

/-- Claim C5 (amended): for every initializer expression whose textual
form contains a recognized procedure-builder method call and the
substring "Procedure", does not contain the substring "router(" (the
router-registration check), and is not an object-literal router shape,
the classifier returns Procedure. -/
theorem C5_classifier_procedure_rule (d : VarDecl) (i : Expr)
    (hinit : d.initializer = some i)
    (hproc : strIncludes i.getText ("Procedure") = true)
    (hbuilder : strIncludes i.getText (".query") = true ∨
      strIncludes i.getText (".mutation") = true ∨
      strIncludes i.getText (".subscription") = true)
    (hnoreg : strIncludes i.getText ("router(") = false)
    (hnoobj : Navigator.isObjectRouter i = false) :
    Navigator.classify d = Navigator.Classification.procedure := by
  have hrd : Navigator.isRouterDeclaration i = false := by
    unfold Navigator.isRouterDeclaration
    rw [hnoreg, hnoobj]
    rfl
  have hp : Navigator.isProcedureDeclaration d = true := by
    unfold Navigator.isProcedureDeclaration
    rw [hinit]
    simp only [hrd, if_false, Bool.false_eq_true, hproc]
    rcases hbuilder with h | h | h <;> simp [h]
  unfold Navigator.classify
  rw [hp]
  rfl

/-- Initializer `protectedProcedure.query(handler)` for the C5 witness. -/
def c5GoodExpr : Expr :=
  Expr.call (Expr.propAccess (Expr.ident "protectedProcedure") "query") [Expr.ident "handler"]

/-- Declaration bound to `protectedProcedure.query(handler)`. -/
def c5GoodDecl : VarDecl :=
  { name := "getUser", initializer := some c5GoodExpr, vstart := 0, vstop := 40 }

/-- Witness for the amended C5: a standard procedure declaration is
classified Procedure. -/
theorem C5_classifier_procedure_rule_witness :
    Navigator.classify c5GoodDecl = Navigator.Classification.procedure :=
  C5_classifier_procedure_rule c5GoodDecl c5GoodExpr rfl (by decide)
    (Or.inl (by decide)) (by decide) (by decide)

/-!
Claims C8, C10 and C3: the property scan, the relative-import
restriction, and last-segment router navigation.
-/

namespace Navigator

/-- A declaration whose initializer is a router shape is never a
procedure (routers take precedence in `isProcedureDeclaration`). -/
theorem isProcedureDeclaration_eq_false_of_router (d : VarDecl) (i : Expr)
    (h1 : d.initializer = some i) (h2 : isRouterDeclaration i = true) :
    isProcedureDeclaration d = false := by
  unfold isProcedureDeclaration
  rw [h1]
  simp only [h2, if_true]

/-- Running the segment loop over a resolved chain prefix continues the
loop from the chain's final declaration, provided segments remain. -/
theorem navLoop_append_chain (env : NavEnv) (lastName : String) :
    ∀ (pre : List String) (cur mid : LocDecl) (rest : List String),
      chainNext env cur pre mid → rest ≠ [] →
      navLoop env lastName cur (pre ++ rest) = navLoop env lastName mid rest := by
  intro pre
  induction pre with
  | nil =>
    intro cur mid rest hchain _
    cases hchain
    rfl
  | cons s pre' ih =>
    intro cur mid rest hchain hner
    obtain ⟨m1, hstep, hrest⟩ := hchain
    have hne : (pre' ++ rest).isEmpty = false := by
      cases rest with
      | nil => exact absurd rfl hner
      | cons r rs => cases pre' <;> rfl
    show navLoop env lastName cur (s :: (pre' ++ rest)) = navLoop env lastName mid rest
    rw [show navLoop env lastName cur (s :: (pre' ++ rest)) =
        (match processRouterSegment env cur s (pre' ++ rest).isEmpty with
         | .definition d => some d
         | .nextDecl nd => navLoop env lastName nd (pre' ++ rest)
         | .notFound => some (createDefinitionFromDeclaration cur.sf cur.decl lastName)
         | .thrown => none) from rfl]
    rw [hne, hstep]
    exact ih m1 mid rest hrest hner

end Navigator

/-- Claim C8: only simple `key: value` property assignments with an
identifier key exactly equal to the child name are considered by the
property scan; the first such match wins; shorthand and spread entries
never match; and when no entry matches (in particular when the name
appears only as a shorthand or spread entry), `processRouterSegment`
reports NotFound. -/
theorem C8_property_scan :
    (∀ (props : List ObjProp) (seg : String) (p : ObjProp),
      Navigator.findMatchingProp props seg = some p →
      ∃ v ps pe, p = ObjProp.propAssign (PropKey.identKey seg) v ps pe)
    ∧ (∀ (l1 l2 : List ObjProp) (p : ObjProp) (seg : String),
      (∀ q ∈ l1, Navigator.matchesSegB seg q = false) →
      Navigator.matchesSegB seg p = true →
      Navigator.findMatchingProp (l1 ++ p :: l2) seg = some p)
    ∧ (∀ (seg n : String), Navigator.matchesSegB seg (ObjProp.shorthand n) = false)
    ∧ (∀ (seg : String) (e : Expr), Navigator.matchesSegB seg (ObjProp.spread e) = false)
    ∧ (∀ (env : NavEnv) (cur : LocDecl) (seg : String) (isLast : Bool)
        (init : Expr) (props : List ObjProp),
      cur.decl.initializer = some init →
      Navigator.routesObjectOf init = some props →
      (props.all fun p => !(Navigator.matchesSegB seg p)) = true →
      Navigator.processRouterSegment env cur seg isLast = Navigator.StepOutcome.notFound) := by
  refine ⟨?_, ?_, ?_, ?_, ?_⟩
  · intro props seg p hfind
    have hp : Navigator.matchesSegB seg p = true := List.find?_some hfind
    cases p with
    | propAssign key v ps pe =>
      cases key with
      | identKey n =>
        have : n = seg := by simpa [Navigator.matchesSegB] using hp
        subst this
        exact ⟨v, ps, pe, rfl⟩
      | otherKey t => simp [Navigator.matchesSegB] at hp
    | shorthand n => simp [Navigator.matchesSegB] at hp
    | spread e => simp [Navigator.matchesSegB] at hp
  · intro l1 l2 p seg hnone hp
    induction l1 with
    | nil => simp [Navigator.findMatchingProp, List.find?_cons, hp]
    | cons q l1' ih =>
      have hq : Navigator.matchesSegB seg q = false := hnone q (List.mem_cons_self q l1')
      have := ih (fun r hr => hnone r (List.mem_cons_of_mem q hr))
      simpa [Navigator.findMatchingProp, List.find?_cons, hq] using this
  · intro seg n; rfl
  · intro seg e; rfl
  · intro env cur seg isLast init props hinit hroutes hall
    have hnone : Navigator.findMatchingProp props seg = none := by
      rw [Navigator.findMatchingProp, List.find?_eq_none]
      intro x hx
      have := List.all_eq_true.mp hall x hx
      simp only [Bool.not_eq_true'] at this
      simp [this]
    simp only [Navigator.processRouterSegment, hinit, hroutes, hnone]

/-- The matched entry of the C8 witness. -/
def c8Match : ObjProp :=
  ObjProp.propAssign (PropKey.identKey "users") (Expr.ident "usersRouter") 5 25

/-- Router declaration whose entries hold the child name only as a
shorthand entry. -/
def c8Decl : VarDecl :=
  { name := "appRouter"
    initializer := some (Expr.call (Expr.ident "router")
      [Expr.objectLit [ObjProp.shorthand "billing"]])
    vstart := 0
    vstop := 60 }

/-- Located C8 declaration. -/
def c8Loc : LocDecl :=
  { sf := { fileName := "/r/index.ts", stmts := [] }, decl := c8Decl }

/-- Witness for C8: shorthand and spread entries before a real property
assignment are skipped and the assignment wins; a child present only as
a shorthand entry resolves to NotFound. -/
theorem C8_property_scan_witness :
    Navigator.findMatchingProp
      ([ObjProp.shorthand "users", ObjProp.spread (Expr.ident "extra")] ++ c8Match :: [])
      "users" = some c8Match
    ∧ Navigator.processRouterSegment (fun _ => none) c8Loc "billing" true =
      Navigator.StepOutcome.notFound := by
  constructor
  · exact C8_property_scan.2.1 [ObjProp.shorthand "users", ObjProp.spread (Expr.ident "extra")]
      [] c8Match "users" (by decide) (by decide)
  · exact C8_property_scan.2.2.2.2 (fun _ => none) c8Loc "billing" true
      (Expr.call (Expr.ident "router") [Expr.objectLit [ObjProp.shorthand "billing"]])
      [ObjProp.shorthand "billing"] rfl (by rfl) (by decide)

/-- Claim C10: the structure parser's import-following step resolves
only relative module specifiers — a named import with a bare specifier
yields `none` from `findImportedDeclaration`, hence `findDeclaration`
fails when the name is not local, `handleIdentifierProperty` reports
NotFound, and the segment loop degrades to the deepest resolved
declaration's location. -/
theorem C10_relative_imports_only :
    (∀ (env : NavEnv) (name : String) (sf : SourceFile) (ip : String),
      Navigator.findImportPathFor sf name = some ip →
      strStartsWith ip (".") = false →
      Navigator.findImportedDeclaration env name sf = none)
    ∧ (∀ (env : NavEnv) (name : String) (sf : SourceFile) (ip : String),
      Navigator.findImportPathFor sf name = some ip →
      strStartsWith ip (".") = false →
      Navigator.findLocalVarDecl sf name = none →
      Navigator.findDeclaration env name sf = none)
    ∧ (∀ (env : NavEnv) (name seg : String) (isLast : Bool) (sf : SourceFile) (ip : String),
      Navigator.findImportPathFor sf name = some ip →
      strStartsWith ip (".") = false →
      Navigator.findLocalVarDecl sf name = none →
      Navigator.handleIdentifierProperty env name seg isLast sf =
        Navigator.StepOutcome.notFound)
    ∧ (∀ (env : NavEnv) (lastName : String) (cur : LocDecl) (seg : String)
        (rest : List String),
      Navigator.processRouterSegment env cur seg rest.isEmpty =
        Navigator.StepOutcome.notFound →
      Navigator.navLoop env lastName cur (seg :: rest) =
        some (Navigator.createDefinitionFromDeclaration cur.sf cur.decl lastName)) := by
  have himp : ∀ (env : NavEnv) (name : String) (sf : SourceFile) (ip : String),
      Navigator.findImportPathFor sf name = some ip →
      strStartsWith ip (".") = false →
      Navigator.findImportedDeclaration env name sf = none := by
    intro env name sf ip hip hrel
    simp only [Navigator.findImportedDeclaration, hip, hrel]
    simp
  have hdecl : ∀ (env : NavEnv) (name : String) (sf : SourceFile) (ip : String),
      Navigator.findImportPathFor sf name = some ip →
      strStartsWith ip (".") = false →
      Navigator.findLocalVarDecl sf name = none →
      Navigator.findDeclaration env name sf = none := by
    intro env name sf ip hip hrel hloc
    simp only [Navigator.findDeclaration, hloc, himp env name sf ip hip hrel]
  refine ⟨himp, hdecl, ?_, ?_⟩
  · intro env name seg isLast sf ip hip hrel hloc
    simp only [Navigator.handleIdentifierProperty, hdecl env name sf ip hip hrel hloc]
  · intro env lastName cur seg rest hstep
    show (match Navigator.processRouterSegment env cur seg rest.isEmpty with
         | .definition d => some d
         | .nextDecl nd => Navigator.navLoop env lastName nd rest
         | .notFound =>
           some (Navigator.createDefinitionFromDeclaration cur.sf cur.decl lastName)
         | .thrown => none) =
      some (Navigator.createDefinitionFromDeclaration cur.sf cur.decl lastName)
    rw [hstep]

/-- Root router declaration of the C10 witness, whose single entry is an
identifier imported from a bare package specifier. -/
def c10Root : VarDecl :=
  { name := "appRouter"
    initializer := some (Expr.call (Expr.ident "router")
      [Expr.objectLit [ObjProp.propAssign (PropKey.identKey "users")
        (Expr.ident "usersRouter") 10 40]])
    vstart := 0
    vstop := 80 }

/-- Source file of the C10 witness: the child router is bound by a
named import from the bare specifier "@acme/api". -/
def c10File : SourceFile :=
  { fileName := "/r/index.ts"
    stmts := [Stmt.importStmt ["usersRouter"] "@acme/api",
      Stmt.varStmt true [c10Root]] }

/-- Located root of the C10 witness. -/
def c10Loc : LocDecl := { sf := c10File, decl := c10Root }

/-- Witness for C10: the bare-specifier import is not followed, the
identifier step reports NotFound, and the loop returns the deepest
resolved declaration (here the root). -/
theorem C10_relative_imports_only_witness :
    Navigator.findImportedDeclaration (fun _ => none) "usersRouter" c10File = none
    ∧ Navigator.handleIdentifierProperty (fun _ => none) "usersRouter" "users" true c10File =
      Navigator.StepOutcome.notFound
    ∧ Navigator.navLoop (fun _ => none) "users" c10Loc ["users"] =
      some (Navigator.createDefinitionFromDeclaration c10File c10Root "users") := by
  refine ⟨?_, ?_, ?_⟩
  · exact C10_relative_imports_only.1 (fun _ => none) "usersRouter" c10File "@acme/api"
      rfl (by decide)
  · exact C10_relative_imports_only.2.2.1 (fun _ => none) "usersRouter" "users" true c10File
      "@acme/api" rfl (by decide) rfl
  · exact C10_relative_imports_only.2.2.2 (fun _ => none) "users" c10Loc "users" [] (by rfl)

/-- Claim C3: when every earlier segment resolves through the router
chain and the final segment's property matches an identifier whose
declaration is classified as a router, `navigateRouterPath` returns
that router's own declaration location (its file and span) and does not
descend into it; the parent's entries may come from a router call, a
plain object literal, or a satisfies-wrapped literal, since all three
feed the same property scan. -/
theorem C3_last_segment_router (env : NavEnv) (root cur child : LocDecl)
    (pre : List String) (s idName : String) (init : Expr) (props : List ObjProp)
    (key : PropKey) (ps pe : Nat) (cInit : Expr)
    (hchain : Navigator.chainNext env root pre cur)
    (hinit : cur.decl.initializer = some init)
    (hroutes : Navigator.routesObjectOf init = some props)
    (hfind : Navigator.findMatchingProp props s =
      some (ObjProp.propAssign key (Expr.ident idName) ps pe))
    (hchild : Navigator.findDeclaration env idName cur.sf = some child)
    (hcinit : child.decl.initializer = some cInit)
    (hrouter : Navigator.isRouterDeclaration cInit = true) :
    Navigator.navigateRouterPath env ⟨some root⟩ (pre ++ [s]) =
      some (Navigator.createDefinitionFromDeclaration child.sf child.decl s) := by
  have hp := Navigator.isProcedureDeclaration_eq_false_of_router child.decl cInit hcinit hrouter
  have hstep : Navigator.processRouterSegment env cur s true =
      Navigator.StepOutcome.definition
        (Navigator.createDefinitionFromDeclaration child.sf child.decl s) := by
    simp only [Navigator.processRouterSegment, hinit, hroutes, hfind]
    simp only [Navigator.handleIdentifierProperty, hchild, hcinit]
    simp [hp]
  show Navigator.navLoop env (Navigator.lastNameOf (pre ++ [s])) root (pre ++ [s]) =
    some (Navigator.createDefinitionFromDeclaration child.sf child.decl s)
  rw [Navigator.navLoop_append_chain env (Navigator.lastNameOf (pre ++ [s])) pre root cur
    [s] hchain (by simp)]
  show (match Navigator.processRouterSegment env cur s ([] : List String).isEmpty with
       | .definition d => some d
       | .nextDecl nd => Navigator.navLoop env (Navigator.lastNameOf (pre ++ [s])) nd []
       | .notFound =>
         some (Navigator.createDefinitionFromDeclaration cur.sf cur.decl
           (Navigator.lastNameOf (pre ++ [s])))
       | .thrown => none) = _
  rw [show (([] : List String).isEmpty) = true from rfl, hstep]

/-- Child router of the C3 witness, defined through a router call. -/
def c3BillingDecl : VarDecl :=
  { name := "billingRouter"
    initializer := some (Expr.call (Expr.ident "router") [Expr.objectLit []])
    vstart := 100
    vstop := 130 }

/-- Root of the C3 witness: a satisfies-wrapped object literal with no
wrapping registration call. -/
def c3RootDecl : VarDecl :=
  { name := "appRouter"
    initializer := some (Expr.satisfiesExpr
      (Expr.objectLit [ObjProp.propAssign (PropKey.identKey "billing")
        (Expr.ident "billingRouter") 20 45]) "RouterLike")
    vstart := 0
    vstop := 60 }

/-- Source file of the C3 witness. -/
def c3File : SourceFile :=
  { fileName := "/r/index.ts"
    stmts := [Stmt.varStmt true [c3RootDecl], Stmt.varStmt true [c3BillingDecl]] }

/-- Located root of the C3 witness. -/
def c3Root : LocDecl := { sf := c3File, decl := c3RootDecl }

/-- Located child router of the C3 witness. -/
def c3Billing : LocDecl := { sf := c3File, decl := c3BillingDecl }

/-- Witness for C3: the path `billing` on the satisfies-wrapped root
resolves to `billingRouter`'s own declaration span, not into it. -/
theorem C3_last_segment_router_witness :
    Navigator.navigateRouterPath (fun _ => none) ⟨some c3Root⟩ ["billing"] =
      some (Navigator.createDefinitionFromDeclaration c3File c3BillingDecl "billing") :=
  C3_last_segment_router (fun _ => none) c3Root c3Root c3Billing [] "billing" "billingRouter"
    (Expr.satisfiesExpr
      (Expr.objectLit [ObjProp.propAssign (PropKey.identKey "billing")
        (Expr.ident "billingRouter") 20 45]) "RouterLike")
    [ObjProp.propAssign (PropKey.identKey "billing") (Expr.ident "billingRouter") 20 45]
    (PropKey.identKey "billing") 20 45
    (Expr.call (Expr.ident "router") [Expr.objectLit []])
    rfl rfl (by rfl) (by rfl) (by rfl) rfl (by decide)

/-!
Claim C1: the batch-mode parent-path fallback.
-/

/-- Router target stored for the deepest resolved ancestor in the C1
evaluation. -/
def c1Target : AstScanner.NavigationTarget :=
  { fileName := "/r/billing.ts"
    line := 3
    column := 14
    position := 40
    tlength := 30
    type := AstScanner.TargetType.router }

/-- Batch mapping holding `api.billing` (the billing router) but not
`api.billing.nonexistentProcedure`. -/
def c1Mapping : AstScanner.Mapping :=
  fun k => if k = "api.billing" then some c1Target else none

/-- Claim C1 evaluated at its failing input: the batch fallback's prefix
loop finds the deepest resolved ancestor `api.billing` (and the code
logs "Using parent navigation" with its location), yet the lookup
returns the host's default response instead of navigating to that
ancestor's declaration — contradicting the graceful-degradation
behavior the spec (and the code's own log message) describe. -/
theorem C1_batch_parent_fallback_eval :
    BatchLookup.findClosestParent c1Mapping
      (strSplitOnChar '.' "api.billing.nonexistentProcedure") =
      some ("api.billing", c1Target)
    ∧ BatchLookup.batchLookupOutcome c1Mapping "api.billing.nonexistentProcedure" =
      BatchLookup.BatchOutcome.hostDefault := by
  exact ⟨by decide, by decide⟩

/-!
Claim C4: the depth bound of the batch scan.
-/

namespace AstScanner

/-- Point-update characterization. -/
theorem mset_eq_some {m : Mapping} {K k : String} {t v : NavigationTarget}
    (h : mset m K t k = some v) : (k = K ∧ v = t) ∨ (k ≠ K ∧ m k = some v) := by
  by_cases hk : k = K
  · left
    subst hk
    simp [mset] at h
    exact ⟨rfl, h.symm⟩
  · right
    refine ⟨hk, ?_⟩
    simpa only [mset, if_neg hk] using h

/-- Every key present after `analyzeRouter` was either present before or
is a dotted key strictly below the current path, reaching at most
`fuel` segments further down. -/
theorem analyzeRouter_key_bound (env : ScanEnv) (apiVar : String)
    (procs : List (String × NavigationTarget)) :
    ∀ (fuel : Nat) (sf : SourceFile) (d : VarDecl) (path : List String)
      (m : Mapping) (k : String) (v : NavigationTarget),
      analyzeRouter env apiVar procs fuel sf d path m k = some v →
      m k = some v ∨ ∃ q : List String, k = mkKey apiVar q ∧
        path.length < q.length ∧ q.length ≤ path.length + fuel := by
  intro fuel
  induction fuel with
  | zero =>
    intro sf d path m k v h
    exact Or.inl h
  | succ fuel ih =>
    have hone : ∀ (sf : SourceFile) (path : List String) (p : ObjProp) (m : Mapping)
        (k : String) (v : NavigationTarget),
        analyzeOnePropWith (analyzeRouter env apiVar procs fuel) env apiVar procs
          sf path p m k = some v →
        m k = some v ∨ ∃ q : List String, k = mkKey apiVar q ∧
          path.length < q.length ∧ q.length ≤ path.length + (fuel + 1) := by
      intro sf path p m k v h
      cases p with
      | shorthand n => exact Or.inl h
      | spread e => exact Or.inl h
      | propAssign key value ps pe =>
        cases value with
        | ident vn =>
          cases hlp : lookupProc procs vn with
          | some t =>
            simp only [analyzeOnePropWith, hlp] at h
            rcases mset_eq_some h with ⟨hk, -⟩ | ⟨-, hm⟩
            · right
              refine ⟨path ++ [key.text], hk, ?_, ?_⟩
              · simp only [List.length_append, List.length_singleton]; omega
              · simp only [List.length_append, List.length_singleton]; omega
            · exact Or.inl hm
          | none =>
            cases hrn : resolveNestedRouter env sf vn with
            | none =>
              simp only [analyzeOnePropWith, hlp, hrn] at h
              exact Or.inl h
            | some pr =>
              obtain ⟨impSf, d2⟩ := pr
              cases hird : isRouterDeclScanner d2 with
              | false =>
                simp only [analyzeOnePropWith, hlp, hrn, hird, Bool.false_eq_true,
                  if_false] at h
                exact Or.inl h
              | true =>
                simp only [analyzeOnePropWith, hlp, hrn, hird, if_true] at h
                rcases ih _ _ _ _ _ _ h with hm | ⟨q, hk, h1, h2⟩
                · rcases mset_eq_some hm with ⟨hk, -⟩ | ⟨-, hm2⟩
                  · right
                    refine ⟨path ++ [key.text], hk, ?_, ?_⟩
                    · simp only [List.length_append, List.length_singleton]; omega
                    · simp only [List.length_append, List.length_singleton]; omega
                  · exact Or.inl hm2
                · right
                  refine ⟨q, hk, ?_, ?_⟩
                  · simp only [List.length_append, List.length_singleton] at h1
                    omega
                  · simp only [List.length_append, List.length_singleton] at h2
                    omega
        | call f args =>
          cases hbp : baseProcOfChain (Expr.call f args) with
          | none =>
            simp only [analyzeOnePropWith, hbp] at h
            exact Or.inl h
          | some b =>
            cases hew : strEndsWith b ("Procedure") with
            | false =>
              simp only [analyzeOnePropWith, hbp, hew, Bool.false_eq_true, if_false] at h
              exact Or.inl h
            | true =>
              simp only [analyzeOnePropWith, hbp, hew, if_true] at h
              rcases mset_eq_some h with ⟨hk, -⟩ | ⟨-, hm⟩
              · right
                refine ⟨path ++ [key.text], hk, ?_, ?_⟩
                · simp only [List.length_append, List.length_singleton]; omega
                · simp only [List.length_append, List.length_singleton]; omega
              · exact Or.inl hm
        | propAccess o pn => exact Or.inl h
        | objectLit props => exact Or.inl h
        | satisfiesExpr inner t => exact Or.inl h
        | rawExpr t => exact Or.inl h
    have hprops : ∀ (props : List ObjProp) (sf : SourceFile) (path : List String)
        (m : Mapping) (k : String) (v : NavigationTarget),
        analyzePropsWith (analyzeRouter env apiVar procs fuel) env apiVar procs
          sf path props m k = some v →
        m k = some v ∨ ∃ q : List String, k = mkKey apiVar q ∧
          path.length < q.length ∧ q.length ≤ path.length + (fuel + 1) := by
      intro props
      induction props with
      | nil =>
        intro sf path m k v h
        exact Or.inl h
      | cons p rest ihp =>
        intro sf path m k v h
        rcases ihp sf path _ k v h with hm | hq
        · exact hone sf path p m k v hm
        · exact Or.inr hq
    intro sf d path m k v h
    cases hre : routerEntriesOf d with
    | none =>
      simp only [analyzeRouter, hre] at h
      exact Or.inl h
    | some props =>
      simp only [analyzeRouter, hre] at h
      exact hprops props sf path m k v h

end AstScanner

/-- Claim C4: the batch traversal is bounded by the configured maximum
depth (default 10): a call at a depth beyond the bound aborts the branch
leaving the mapping unchanged, and every key the scan produces is a
dotted path of at most `maxDepth + 1` segments after the api prefix, so
no router nested deeper than the bound yields a full-path resolution.
The embedding's recursion is total by construction (fuel), which is the
termination half of the claim. -/
theorem C4_depth_bound :
    (∀ (env : AstScanner.ScanEnv) (apiVar : String)
      (procs : List (String × AstScanner.NavigationTarget)) (sf : SourceFile)
      (d : VarDecl) (path : List String) (m : AstScanner.Mapping)
      (maxDepth : Option Nat) (depth : Nat),
      AstScanner.effMaxDepth maxDepth < depth →
      AstScanner.analyzeRouterAtDepth env apiVar procs sf d path m maxDepth depth = m)
    ∧ (∀ (env : AstScanner.ScanEnv) (apiVar : String)
      (procs : List (String × AstScanner.NavigationTarget)) (routerRoot : String)
      (mainRouterName : Option String) (maxDepth : Option Nat) (k : String)
      (v : AstScanner.NavigationTarget),
      AstScanner.buildRouterHierarchy env apiVar procs routerRoot mainRouterName maxDepth k
        = some v →
      ∃ q : List String, k = AstScanner.mkKey apiVar q ∧ 1 ≤ q.length ∧
        q.length ≤ AstScanner.effMaxDepth maxDepth + 1) := by
  constructor
  · intro env apiVar procs sf d path m maxDepth depth hd
    unfold AstScanner.analyzeRouterAtDepth
    have h0 : AstScanner.effMaxDepth maxDepth + 1 - depth = 0 := by omega
    rw [h0]
    rfl
  · intro env apiVar procs routerRoot mainRouterName maxDepth k v h
    revert h
    cases hsf : AstScanner.getSourceFileAt env (routerRoot ++ "/index.ts") with
    | none =>
      intro h
      simp only [AstScanner.buildRouterHierarchy, hsf] at h
      exact absurd h (by simp [AstScanner.memptyM])
    | some mainSf =>
      cases hvd : AstScanner.getVariableDeclOf mainSf (AstScanner.mainNameOf mainRouterName) with
      | none =>
        intro h
        simp only [AstScanner.buildRouterHierarchy, hsf, hvd] at h
        exact absurd h (by simp [AstScanner.memptyM])
      | some mainDecl =>
        intro h
        simp only [AstScanner.buildRouterHierarchy, hsf, hvd,
          AstScanner.analyzeRouterAtDepth] at h
        rcases AstScanner.analyzeRouter_key_bound env apiVar procs
            (AstScanner.effMaxDepth maxDepth + 1 - 0) mainSf mainDecl [] AstScanner.memptyM
            k v h with hm | ⟨q, hk, h1, h2⟩
        · exact absurd hm (by simp [AstScanner.memptyM])
        · refine ⟨q, hk, by simpa using h1, ?_⟩
          simp only [List.length_nil] at h2
          omega

/-- Procedure target of the scanner fixtures (claims C4 and C7). -/
def c47GetUserTarget : AstScanner.NavigationTarget :=
  { fileName := "/r/users.ts"
    line := 2
    column := 1
    position := 10
    tlength := 20
    type := AstScanner.TargetType.procedure
    procedureName := some "getUser" }

/-- Nested router declaration of the scanner fixtures. -/
def c47UsersRouterDecl : VarDecl :=
  { name := "usersRouter"
    initializer := some (Expr.call (Expr.ident "router")
      [Expr.objectLit [ObjProp.propAssign (PropKey.identKey "getUser")
        (Expr.ident "getUser") 30 60]])
    vstart := 0
    vstop := 70 }

/-- File declaring the nested router. -/
def c47UsersFile : SourceFile :=
  { fileName := "/r/users.ts", stmts := [Stmt.varStmt true [c47UsersRouterDecl]] }

/-- Root router declaration of the scanner fixtures. -/
def c47RootDecl : VarDecl :=
  { name := "appRouter"
    initializer := some (Expr.call (Expr.ident "router")
      [Expr.objectLit [ObjProp.propAssign (PropKey.identKey "users")
        (Expr.ident "usersRouter") 40 70]])
    vstart := 0
    vstop := 90 }

/-- Main router file of the scanner fixtures. -/
def c47RootFile : SourceFile :=
  { fileName := "/r/index.ts"
    stmts := [Stmt.importStmt ["usersRouter"] "./users",
      Stmt.varStmt true [c47RootDecl]] }

/-- Scanner environment of the fixtures. -/
def c47Env : AstScanner.ScanEnv :=
  { files := [c47RootFile, c47UsersFile]
    modResolve := fun f spec =>
      if f = "/r/index.ts" && spec = "./users" then some c47UsersFile else none
    lineCol := fun _ p => (p + 1, 1) }

/-- Procedure index of the fixtures (as built by `scanProceduresSync`). -/
def c47Procs : List (String × AstScanner.NavigationTarget) :=
  [("getUser", c47GetUserTarget)]

/-- The mapping the batch scan produces on the fixtures. -/
def c47M : AstScanner.Mapping :=
  AstScanner.buildRouterHierarchy c47Env "api" c47Procs "/r" none none

/-- Witness for C4: a call beyond the default depth bound leaves the
mapping unchanged, and a concrete produced key respects the bound. -/
theorem C4_depth_bound_witness :
    AstScanner.analyzeRouterAtDepth c47Env "api" c47Procs c47RootFile c47RootDecl []
      AstScanner.memptyM none 11 = AstScanner.memptyM
    ∧ (∃ q : List String, "api.users.getUser" = AstScanner.mkKey "api" q ∧
        1 ≤ q.length ∧ q.length ≤ AstScanner.effMaxDepth none + 1) := by
  constructor
  · exact C4_depth_bound.1 c47Env "api" c47Procs c47RootFile c47RootDecl []
      AstScanner.memptyM none 11 (by decide)
  · exact C4_depth_bound.2 c47Env "api" c47Procs "/r" none none "api.users.getUser"
      c47GetUserTarget (by rfl)

/-!
Claim C7: path-prefix monotonicity.

Infrastructure: injectivity of dotted keys over well-formed (nonempty,
dot-free) segment names, well-formedness of a scanned project, and the
reachability relation tying a mapping prefix to the ancestor router the
scan descended through.
-/

/-- String equality follows from equality of character data. -/
theorem strDataInj {a b : String} (h : a.data = b.data) : a = b :=
  congrArg String.mk h

/-- Appending strings appends their character data. -/
theorem strDataAppend (a b : String) : (a ++ b).data = a.data ++ b.data := rfl

/-- Splitting a character list at a separator absent from both heads is
unambiguous. -/
theorem charsSplit : ∀ (a b x y : List Char), '.' ∉ a → '.' ∉ b →
    a ++ '.' :: x = b ++ '.' :: y → a = b ∧ x = y := by
  intro a
  induction a with
  | nil =>
    intro b x y _ hb h
    cases b with
    | nil => simpa using h
    | cons c cs =>
      simp only [List.nil_append, List.cons_append, List.cons.injEq] at h
      exact absurd (h.1 ▸ List.mem_cons_self c cs) hb
  | cons c cs ih =>
    intro b x y ha hb h
    cases b with
    | nil =>
      simp only [List.cons_append, List.nil_append, List.cons.injEq] at h
      exact absurd (h.1.symm ▸ List.mem_cons_self c cs) ha
    | cons e es =>
      simp only [List.cons_append, List.cons.injEq] at h
      obtain ⟨hce, hrest⟩ := h
      have hin : '.' ∉ cs := fun hm => ha (List.mem_cons_of_mem c hm)
      have hin2 : '.' ∉ es := fun hm => hb (List.mem_cons_of_mem e hm)
      obtain ⟨h1, h2⟩ := ih es x y hin hin2 hrest
      exact ⟨by rw [hce, h1], h2⟩

namespace AstScanner

/-- Well-formed segment name: nonempty and dot-free. -/
def goodName (s : String) : Bool :=
  !(s == "") && !(s.toList.contains '.')

/-- Duplicate-freedom of a name list. -/
def nodupB : List String → Bool
  | [] => true
  | x :: xs => !(xs.contains x) && nodupB xs

/-- A good name has nonempty, dot-free character data. -/
theorem goodName_spec {s : String} (h : goodName s = true) :
    s.data ≠ [] ∧ '.' ∉ s.data := by
  simp only [goodName, Bool.and_eq_true, Bool.not_eq_true', beq_eq_false_iff_ne] at h
  obtain ⟨h1, h2⟩ := h
  refine ⟨fun hd => h1 (strDataInj (by simpa using hd)), fun hm => ?_⟩
  have hc : List.contains s.toList '.' = true := by simpa using hm
  rw [hc] at h2
  cases h2

/-- Character data of a dotted join with at least two segments. -/
theorem dotJoin_cons_cons (s t : String) (rest : List String) :
    (dotJoin (s :: t :: rest)).data = s.data ++ '.' :: (dotJoin (t :: rest)).data := by
  show (s ++ "." ++ dotJoin (t :: rest)).data = _
  rw [strDataAppend, strDataAppend, List.append_assoc]
  rfl

/-- Dotted joins of good segment lists are injective. -/
theorem dotJoin_inj : ∀ (p q : List String), (∀ x ∈ p, goodName x = true) →
    (∀ x ∈ q, goodName x = true) → dotJoin p = dotJoin q → p = q := by
  intro p
  induction p with
  | nil =>
    intro q _ hq h
    cases q with
    | nil => rfl
    | cons b bs =>
      exfalso
      have hb := goodName_spec (hq b (List.mem_cons_self b bs))
      cases bs with
      | nil => exact hb.1 (by simpa using (congrArg String.data h).symm)
      | cons t ts =>
        have hd := congrArg String.data h
        rw [dotJoin_cons_cons] at hd
        have hd2 : ([] : List Char) = b.data ++ '.' :: (dotJoin (t :: ts)).data := hd
        cases hbd : b.data with
        | nil => rw [hbd] at hd2; simp at hd2
        | cons c cs => rw [hbd] at hd2; simp at hd2
  | cons a as ih =>
    intro q hp hq h
    have ha := goodName_spec (hp a (List.mem_cons_self a as))
    cases q with
    | nil =>
      exfalso
      cases as with
      | nil => exact ha.1 (by simpa using congrArg String.data h)
      | cons t ts =>
        have hd := congrArg String.data h
        rw [dotJoin_cons_cons] at hd
        have hd2 : a.data ++ '.' :: (dotJoin (t :: ts)).data = ([] : List Char) := hd
        cases had : a.data with
        | nil => rw [had] at hd2; simp at hd2
        | cons c cs => rw [had] at hd2; simp at hd2
    | cons b bs =>
      have hb := goodName_spec (hq b (List.mem_cons_self b bs))
      cases as with
      | nil =>
        cases bs with
        | nil =>
          have hab : a = b := strDataInj (by simpa using congrArg String.data h)
          rw [hab]
        | cons u us =>
          exfalso
          have hd := congrArg String.data h
          rw [dotJoin_cons_cons] at hd
          have hd2 : a.data = b.data ++ '.' :: (dotJoin (u :: us)).data := hd
          exact ha.2 (hd2 ▸ List.mem_append_right b.data (List.mem_cons_self _ _))
      | cons t ts =>
        cases bs with
        | nil =>
          exfalso
          have hd := congrArg String.data h
          rw [dotJoin_cons_cons] at hd
          have hd2 : a.data ++ '.' :: (dotJoin (t :: ts)).data = b.data := hd
          exact hb.2 (hd2 ▸ List.mem_append_right a.data (List.mem_cons_self _ _))
        | cons u us =>
          have hd := congrArg String.data h
          rw [dotJoin_cons_cons, dotJoin_cons_cons] at hd
          obtain ⟨h1, h2⟩ := charsSplit a.data b.data _ _ ha.2 hb.2 hd
          have hab : a = b := strDataInj h1
          have htail : dotJoin (t :: ts) = dotJoin (u :: us) := strDataInj h2
          have := ih (u :: us) (fun x hx => hp x (List.mem_cons_of_mem a hx))
            (fun x hx => hq x (List.mem_cons_of_mem b hx)) htail
          rw [hab, this]

/-- Dotted keys over good segment lists are injective (for a good api
prefix). -/
theorem mkKey_inj {apiVar : String} (hapi : goodName apiVar = true) :
    ∀ (p q : List String), (∀ x ∈ p, goodName x = true) →
    (∀ x ∈ q, goodName x = true) → mkKey apiVar p = mkKey apiVar q → p = q := by
  intro p q hp hq h
  have ha := goodName_spec hapi
  have hd := congrArg String.data h
  simp only [mkKey] at hd
  rw [strDataAppend, strDataAppend, strDataAppend, strDataAppend] at hd
  have hd2 : apiVar.data ++ '.' :: (dotJoin p).data =
      apiVar.data ++ '.' :: (dotJoin q).data := by
    simpa using hd
  obtain ⟨-, h2⟩ := charsSplit apiVar.data apiVar.data _ _ ha.2 ha.2 hd2
  exact dotJoin_inj p q hp hq (strDataInj h2)

end AstScanner

namespace AstScanner

/-- Property-assignment names of an entries object (in order). -/
def propNamesOf (props : List ObjProp) : List String :=
  props.filterMap fun p =>
    match p with
    | .propAssign key _ _ _ => some key.text
    | _ => none

/-- Entries well-formedness of one declaration: when its initializer
parses as a router call with an object-literal argument, the entry names
are good (nonempty, dot-free) and duplicate-free — the spec's "router
child property names are unique strings" data-model invariant. -/
def entriesWF (d : VarDecl) : Bool :=
  match routerEntriesOf d with
  | none => true
  | some props => (propNamesOf props).all goodName && nodupB (propNamesOf props)

/-- Entries well-formedness of every declaration of a file. -/
def sfEntriesWF (sf : SourceFile) : Bool :=
  sf.stmts.all fun st =>
    match st with
    | .varStmt _ decls => decls.all entriesWF
    | _ => true

/-- Well-formed scan environment: every project file and every
module-resolution result has well-formed entries. -/
def ScanWF (env : ScanEnv) : Prop :=
  (∀ sf ∈ env.files, sfEntriesWF sf = true) ∧
  (∀ f s sf, env.modResolve f s = some sf → sfEntriesWF sf = true)

/-- First-some search yields a witnessing element. -/
theorem listFirstSome_spec {α β : Type} :
    ∀ (l : List α) (f : α → Option β) (b : β),
      listFirstSome l f = some b → ∃ a ∈ l, f a = some b := by
  intro l f b
  induction l with
  | nil => intro h; cases h
  | cons a rest ih =>
    intro h
    cases hfa : f a with
    | some b2 =>
      simp only [listFirstSome, hfa] at h
      exact ⟨a, List.mem_cons_self a rest, by rw [hfa, h]⟩
    | none =>
      simp only [listFirstSome, hfa] at h
      obtain ⟨a2, ha2, hf2⟩ := ih h
      exact ⟨a2, List.mem_cons_of_mem a ha2, hf2⟩

/-- A declaration found by `getVariableDeclOf` inherits the file's
entries well-formedness. -/
theorem getVariableDeclOf_entriesWF {sf : SourceFile} {v : String} {d : VarDecl}
    (h : getVariableDeclOf sf v = some d) (hwf : sfEntriesWF sf = true) :
    entriesWF d = true := by
  obtain ⟨st, hst, hf⟩ := listFirstSome_spec sf.stmts _ d h
  cases st with
  | varStmt exported decls =>
    have hd : d ∈ decls := List.mem_of_find?_eq_some hf
    have hall := List.all_eq_true.mp hwf _ hst
    exact List.all_eq_true.mp hall d hd
  | importStmt names spec => cases hf
  | exportAssignStmt isEq e => cases hf
  | exportNamedStmt elems => cases hf

/-- A nested router resolved through the project's module resolution
inherits entries well-formedness from the environment. -/
theorem resolveNestedRouter_entriesWF {env : ScanEnv} {sf sf2 : SourceFile}
    {v : String} {d2 : VarDecl} (hwf : ScanWF env)
    (h : resolveNestedRouter env sf v = some (sf2, d2)) : entriesWF d2 = true := by
  revert h
  cases hspec : findImportSpecFor sf v with
  | none => intro h; simp only [resolveNestedRouter, hspec] at h; cases h
  | some spec =>
    cases hmr : env.modResolve sf.fileName spec with
    | none => intro h; simp only [resolveNestedRouter, hspec, hmr] at h; cases h
    | some impSf =>
      cases hvd : getVariableDeclOf impSf v with
      | none => intro h; simp only [resolveNestedRouter, hspec, hmr, hvd] at h; cases h
      | some d =>
        intro h
        simp only [resolveNestedRouter, hspec, hmr, hvd, Option.some.injEq,
          Prod.mk.injEq] at h
        obtain ⟨h1, h2⟩ := h
        subst h1
        subst h2
        exact getVariableDeclOf_entriesWF hvd (hwf.2 _ _ _ hmr)

/-- Reachability of a router declaration from a root by following the
scan's descent steps along a segment list: each step matches a property
assignment whose identifier is not a known procedure, resolves it
through an import to a declaration recognized as a router, and
continues there. -/
inductive ReachesRouter (env : ScanEnv) (procs : List (String × NavigationTarget)) :
    SourceFile → VarDecl → List String → SourceFile → VarDecl → Prop where
  | here (sf : SourceFile) (d : VarDecl) : ReachesRouter env procs sf d [] sf d
  | step : ∀ {sf : SourceFile} {d : VarDecl} {props : List ObjProp} {key : PropKey}
      {v : String} {ps pe : Nat} {sf2 : SourceFile} {d2 : VarDecl}
      {rest : List String} {sf3 : SourceFile} {d3 : VarDecl},
      routerEntriesOf d = some props →
      ObjProp.propAssign key (Expr.ident v) ps pe ∈ props →
      lookupProc procs v = none →
      resolveNestedRouter env sf v = some (sf2, d2) →
      isRouterDeclScanner d2 = true →
      ReachesRouter env procs sf2 d2 rest sf3 d3 →
      ReachesRouter env procs sf d (key.text :: rest) sf3 d3

/-- Reachability extends by one descent step at the far end. -/
theorem reaches_snoc (env : ScanEnv) (procs : List (String × NavigationTarget)) :
    ∀ {sf0 : SourceFile} {d0 : VarDecl} {path : List String} {sf : SourceFile}
      {d : VarDecl},
      ReachesRouter env procs sf0 d0 path sf d →
      ∀ {props : List ObjProp} {key : PropKey} {v : String} {ps pe : Nat}
        {sf2 : SourceFile} {d2 : VarDecl},
        routerEntriesOf d = some props →
        ObjProp.propAssign key (Expr.ident v) ps pe ∈ props →
        lookupProc procs v = none →
        resolveNestedRouter env sf v = some (sf2, d2) →
        isRouterDeclScanner d2 = true →
        ReachesRouter env procs sf0 d0 (path ++ [key.text]) sf2 d2 := by
  intro sf0 d0 path sf d h
  induction h with
  | here sfx dx =>
    intro props key v ps pe sf2 d2 h1 h2 h3 h4 h5
    exact ReachesRouter.step h1 h2 h3 h4 h5 (ReachesRouter.here sf2 d2)
  | step e1 e2 e3 e4 e5 e6 ih =>
    intro props key v ps pe sf2 d2 h1 h2 h3 h4 h5
    exact ReachesRouter.step e1 e2 e3 e4 e5 (ih h1 h2 h3 h4 h5)

end AstScanner

namespace AstScanner

/-- Good segment list: every name nonempty and dot-free. -/
def GoodL (p : List String) : Prop := ∀ x ∈ p, goodName x = true

/-- Every present key is a dotted key over a good nonempty segment list. -/
def Keyed (apiVar : String) (m : Mapping) : Prop :=
  ∀ k v, m k = some v →
    ∃ q : List String, GoodL q ∧ 1 ≤ q.length ∧ k = mkKey apiVar q

/-- Prefix property of a mapping: every proper nonempty prefix of a
present good key is present and holds the declaration target of the
router reached along that prefix. -/
def Pref (env : ScanEnv) (apiVar : String) (procs : List (String × NavigationTarget))
    (rootSf : SourceFile) (rootDecl : VarDecl) (m : Mapping) : Prop :=
  ∀ (p : List String) (t : NavigationTarget), GoodL p →
    m (mkKey apiVar p) = some t →
    ∀ j, 1 ≤ j → j < p.length →
      ∃ sf2 d2, ReachesRouter env procs rootSf rootDecl (p.take j) sf2 d2 ∧
        m (mkKey apiVar (p.take j)) = some (routerTargetOf env sf2 d2)

/-- Ancestor property at a path: every nonempty prefix of the path is
present with its reached router's declaration target. -/
def Anc (env : ScanEnv) (apiVar : String) (procs : List (String × NavigationTarget))
    (rootSf : SourceFile) (rootDecl : VarDecl) (path : List String) (m : Mapping) :
    Prop :=
  ∀ j, 1 ≤ j → j ≤ path.length →
    ∃ sf2 d2, ReachesRouter env procs rootSf rootDecl (path.take j) sf2 d2 ∧
      m (mkKey apiVar (path.take j)) = some (routerTargetOf env sf2 d2)

/-- Goodness is preserved by take. -/
theorem GoodL_take {p : List String} (h : GoodL p) (j : Nat) : GoodL (p.take j) :=
  fun x hx => h x (List.take_subset j p hx)

/-- Goodness of an extension built from good pieces. -/
theorem GoodL_append_cons {path : List String} {n : String} {r : List String}
    (hp : GoodL path) (hn : goodName n = true) (hr : GoodL r) :
    GoodL (path ++ n :: r) := by
  intro x hx
  rcases List.mem_append.mp hx with h1 | h2
  · exact hp x h1
  · rcases List.mem_cons.mp h2 with h3 | h4
    · exact h3 ▸ hn
    · exact hr x h4

/-- Pieces of a good extension are good. -/
theorem GoodL_of_append_cons {path : List String} {n : String} {r : List String}
    (h : GoodL (path ++ n :: r)) :
    GoodL path ∧ goodName n = true ∧ GoodL r := by
  refine ⟨fun x hx => h x (List.mem_append_left _ hx),
    h n (List.mem_append_right _ (List.mem_cons_self n r)),
    fun x hx => h x (List.mem_append_right _ (List.mem_cons_of_mem n hx))⟩

/-- A singleton extension is the `r = []` case. -/
theorem append_singleton_eq {path : List String} {n : String} :
    path ++ [n] = path ++ n :: ([] : List String) := rfl

/-- Invariants are preserved by inserting any target at the key directly
below the current path, provided nothing at or below that key is
present. -/
theorem insert_step_invariant (env : ScanEnv) (apiVar : String)
    (procs : List (String × NavigationTarget)) (rootSf : SourceFile)
    (rootDecl : VarDecl) (hapi : goodName apiVar = true)
    {path : List String} {m : Mapping} {n : String} {t : NavigationTarget}
    (hpath : GoodL path) (hn : goodName n = true)
    (hkeyed : Keyed apiVar m)
    (hnoU : ∀ r, GoodL (path ++ n :: r) → m (mkKey apiVar (path ++ n :: r)) = none)
    (hpref : Pref env apiVar procs rootSf rootDecl m)
    (hanc : Anc env apiVar procs rootSf rootDecl path m) :
    (∀ k v, m k = some v → mset m (mkKey apiVar (path ++ [n])) t k = some v)
    ∧ (∀ k v, mset m (mkKey apiVar (path ++ [n])) t k = some v →
        m k = some v ∨ ∃ r, GoodL (path ++ n :: r) ∧ k = mkKey apiVar (path ++ n :: r))
    ∧ Keyed apiVar (mset m (mkKey apiVar (path ++ [n])) t)
    ∧ Pref env apiVar procs rootSf rootDecl (mset m (mkKey apiVar (path ++ [n])) t)
    ∧ Anc env apiVar procs rootSf rootDecl path (mset m (mkKey apiVar (path ++ [n])) t) := by
  have hgoodpn : GoodL (path ++ [n]) := GoodL_append_cons hpath hn (fun x hx => absurd hx (List.not_mem_nil x))
  have hKnone : m (mkKey apiVar (path ++ [n])) = none := hnoU [] hgoodpn
  have hApre : ∀ k v, m k = some v → mset m (mkKey apiVar (path ++ [n])) t k = some v := by
    intro k v hm
    by_cases hk : k = mkKey apiVar (path ++ [n])
    · rw [hk, hKnone] at hm
      cases hm
    · simpa [mset, hk] using hm
  refine ⟨hApre, ?_, ?_, ?_, ?_⟩
  · intro k v h
    rcases mset_eq_some h with ⟨hk, -⟩ | ⟨-, hm⟩
    · exact Or.inr ⟨[], hgoodpn, hk⟩
    · exact Or.inl hm
  · intro k v h
    rcases mset_eq_some h with ⟨hk, -⟩ | ⟨-, hm⟩
    · exact ⟨path ++ [n], hgoodpn, by simp, hk⟩
    · exact hkeyed k v hm
  · intro p t' hp hpt' j hj1 hj2
    by_cases hpk : p = path ++ [n]
    · subst hpk
      have hjle : j ≤ path.length := by
        simp only [List.length_append, List.length_singleton] at hj2
        omega
      have htake : (path ++ [n]).take j = path.take j :=
        List.take_append_of_le_length hjle
      obtain ⟨sf2, d2, hre, hmv⟩ := hanc j hj1 hjle
      refine ⟨sf2, d2, by rw [htake]; exact hre, ?_⟩
      rw [htake]
      refine hApre _ _ hmv
    · have hpK : mkKey apiVar p ≠ mkKey apiVar (path ++ [n]) := by
        intro he
        exact hpk (mkKey_inj hapi p (path ++ [n]) hp hgoodpn he)
      have hmold : m (mkKey apiVar p) = some t' := by
        have : mset m (mkKey apiVar (path ++ [n])) t (mkKey apiVar p) = m (mkKey apiVar p) := by
          simp [mset, hpK]
        rw [← this]
        exact hpt'
      obtain ⟨sf2, d2, hre, hmv⟩ := hpref p t' hp hmold j hj1 hj2
      exact ⟨sf2, d2, hre, hApre _ _ hmv⟩
  · intro j hj1 hj2
    obtain ⟨sf2, d2, hre, hmv⟩ := hanc j hj1 hj2
    exact ⟨sf2, d2, hre, hApre _ _ hmv⟩

end AstScanner

namespace AstScanner

/-- Property names of a property-assignment-headed list. -/
theorem propNamesOf_cons_assign (key : PropKey) (value : Expr) (ps pe : Nat)
    (rest : List ObjProp) :
    propNamesOf (ObjProp.propAssign key value ps pe :: rest) =
      key.text :: propNamesOf rest := rfl

/-- Main invariant of the batch scan: starting from a state whose keys
are good, whose region below the current path is empty, which satisfies
the prefix property, and which holds every ancestor of the current
path, `analyzeRouter` preserves existing entries, adds only keys
strictly below the current path, and preserves keyedness and the prefix
property. -/
theorem analyzeRouter_invariant (env : ScanEnv) (apiVar : String)
    (procs : List (String × NavigationTarget)) (rootSf : SourceFile)
    (rootDecl : VarDecl) (hapi : goodName apiVar = true) (hwf : ScanWF env) :
    ∀ (fuel : Nat) (sf : SourceFile) (d : VarDecl) (path : List String) (m : Mapping),
      GoodL path →
      ReachesRouter env procs rootSf rootDecl path sf d →
      entriesWF d = true →
      Keyed apiVar m →
      (∀ r, r ≠ [] → GoodL (path ++ r) → m (mkKey apiVar (path ++ r)) = none) →
      Pref env apiVar procs rootSf rootDecl m →
      Anc env apiVar procs rootSf rootDecl path m →
      (∀ k v, m k = some v → analyzeRouter env apiVar procs fuel sf d path m k = some v)
      ∧ (∀ k v, analyzeRouter env apiVar procs fuel sf d path m k = some v →
          m k = some v ∨ ∃ r, r ≠ [] ∧ GoodL (path ++ r) ∧ k = mkKey apiVar (path ++ r))
      ∧ Keyed apiVar (analyzeRouter env apiVar procs fuel sf d path m)
      ∧ Pref env apiVar procs rootSf rootDecl (analyzeRouter env apiVar procs fuel sf d path m) := by
  intro fuel
  induction fuel with
  | zero =>
    intro sf d path m hpath hreach hdw hkeyed hfresh hpref hanc
    exact ⟨fun k v h => h, fun k v h => Or.inl h, hkeyed, hpref⟩
  | succ fuel ih =>
    -- Invariant for a single property assignment.
    have hone : ∀ (sf : SourceFile) (d : VarDecl) (path : List String)
        (allProps : List ObjProp) (key : PropKey) (value : Expr) (ps pe : Nat)
        (m : Mapping),
        GoodL path →
        ReachesRouter env procs rootSf rootDecl path sf d →
        routerEntriesOf d = some allProps →
        ObjProp.propAssign key value ps pe ∈ allProps →
        goodName key.text = true →
        Keyed apiVar m →
        (∀ r, GoodL (path ++ key.text :: r) →
          m (mkKey apiVar (path ++ key.text :: r)) = none) →
        Pref env apiVar procs rootSf rootDecl m →
        Anc env apiVar procs rootSf rootDecl path m →
        (∀ k v, m k = some v →
          analyzeOnePropWith (analyzeRouter env apiVar procs fuel) env apiVar procs
            sf path (ObjProp.propAssign key value ps pe) m k = some v)
        ∧ (∀ k v, analyzeOnePropWith (analyzeRouter env apiVar procs fuel) env apiVar
            procs sf path (ObjProp.propAssign key value ps pe) m k = some v →
          m k = some v ∨ ∃ r, GoodL (path ++ key.text :: r) ∧
            k = mkKey apiVar (path ++ key.text :: r))
        ∧ Keyed apiVar (analyzeOnePropWith (analyzeRouter env apiVar procs fuel) env
            apiVar procs sf path (ObjProp.propAssign key value ps pe) m)
        ∧ Pref env apiVar procs rootSf rootDecl
            (analyzeOnePropWith (analyzeRouter env apiVar procs fuel) env apiVar procs
              sf path (ObjProp.propAssign key value ps pe) m)
        ∧ Anc env apiVar procs rootSf rootDecl path
            (analyzeOnePropWith (analyzeRouter env apiVar procs fuel) env apiVar procs
              sf path (ObjProp.propAssign key value ps pe) m) := by
      intro sf d path allProps key value ps pe m hpath hreach hallprops hmem hn
        hkeyed hnoU hpref hanc
      have hgoodpn : GoodL (path ++ [key.text]) :=
        GoodL_append_cons hpath hn (fun x hx => absurd hx (List.not_mem_nil x))
      cases value with
      | ident vn =>
        cases hlp : lookupProc procs vn with
        | some t =>
          simp only [analyzeOnePropWith, hlp]
          exact insert_step_invariant env apiVar procs rootSf rootDecl hapi hpath hn
            hkeyed hnoU hpref hanc
        | none =>
          cases hrn : resolveNestedRouter env sf vn with
          | none =>
            simp only [analyzeOnePropWith, hlp, hrn]
            exact ⟨fun k v h => h, fun k v h => Or.inl h, hkeyed, hpref, hanc⟩
          | some pr =>
            obtain ⟨impSf, d2⟩ := pr
            cases hird : isRouterDeclScanner d2 with
            | false =>
              simp only [analyzeOnePropWith, hlp, hrn, hird, Bool.false_eq_true,
                if_false]
              exact ⟨fun k v h => h, fun k v h => Or.inl h, hkeyed, hpref, hanc⟩
            | true =>
              simp only [analyzeOnePropWith, hlp, hrn, hird, if_true]
              have hins := insert_step_invariant env apiVar procs rootSf rootDecl hapi
                (t := routerTargetOf env impSf d2) hpath hn hkeyed hnoU hpref hanc
              have hreach2 : ReachesRouter env procs rootSf rootDecl
                  (path ++ [key.text]) impSf d2 :=
                reaches_snoc env procs hreach hallprops hmem hlp hrn hird
              have hentries2 : entriesWF d2 = true :=
                resolveNestedRouter_entriesWF hwf hrn
              have hfresh2 : ∀ r, r ≠ [] → GoodL ((path ++ [key.text]) ++ r) →
                  mset m (mkKey apiVar (path ++ [key.text]))
                    (routerTargetOf env impSf d2)
                    (mkKey apiVar ((path ++ [key.text]) ++ r)) = none := by
                intro r hr hg
                have heqr : (path ++ [key.text]) ++ r = path ++ key.text :: r := by
                  simp
                rw [heqr] at hg ⊢
                have hne : mkKey apiVar (path ++ key.text :: r) ≠
                    mkKey apiVar (path ++ [key.text]) := by
                  intro he
                  have := mkKey_inj hapi _ _ hg hgoodpn he
                  have h2 := List.append_cancel_left this
                  simp only [List.cons.injEq, true_and] at h2
                  exact hr h2
                rw [show mset m (mkKey apiVar (path ++ [key.text]))
                    (routerTargetOf env impSf d2)
                    (mkKey apiVar (path ++ key.text :: r)) =
                    m (mkKey apiVar (path ++ key.text :: r)) by simp [mset, hne]]
                exact hnoU r hg
              have hanc2 : Anc env apiVar procs rootSf rootDecl (path ++ [key.text])
                  (mset m (mkKey apiVar (path ++ [key.text]))
                    (routerTargetOf env impSf d2)) := by
                intro j hj1 hj2
                by_cases hj : j ≤ path.length
                · have htake : (path ++ [key.text]).take j = path.take j :=
                    List.take_append_of_le_length hj
                  obtain ⟨sf3, d3, hre3, hmv3⟩ := hins.2.2.2.2 j hj1 hj
                  exact ⟨sf3, d3, by rw [htake]; exact hre3, by rw [htake]; exact hmv3⟩
                · have hjeq : j = path.length + 1 := by
                    simp only [List.length_append, List.length_singleton] at hj2
                    omega
                  have htake : (path ++ [key.text]).take j = path ++ [key.text] := by
                    rw [List.take_of_length_le (by simp [hjeq])]
                  rw [htake]
                  exact ⟨impSf, d2, hreach2, by simp [mset]⟩
              have ihres := ih impSf d2 (path ++ [key.text])
                (mset m (mkKey apiVar (path ++ [key.text]))
                  (routerTargetOf env impSf d2))
                hgoodpn hreach2 hentries2 hins.2.2.1 hfresh2 hins.2.2.2.1 hanc2
              refine ⟨?_, ?_, ihres.2.2.1, ihres.2.2.2, ?_⟩
              · intro k v h
                exact ihres.1 k v (hins.1 k v h)
              · intro k v h
                rcases ihres.2.1 k v h with h1 | ⟨r, hrne, hgood, hk⟩
                · rcases hins.2.1 k v h1 with h2 | ⟨r, hgood, hk⟩
                  · exact Or.inl h2
                  · exact Or.inr ⟨r, hgood, hk⟩
                · have heqr : (path ++ [key.text]) ++ r = path ++ key.text :: r := by
                    simp
                  refine Or.inr ⟨r, ?_, ?_⟩
                  · rw [← heqr]; exact hgood
                  · rw [← heqr]; exact hk
              · intro j hj1 hj2
                obtain ⟨sf3, d3, hre3, hmv3⟩ := hanc j hj1 hj2
                exact ⟨sf3, d3, hre3, ihres.1 _ _ (hins.1 _ _ hmv3)⟩
      | call f args =>
        cases hbp : baseProcOfChain (Expr.call f args) with
        | none =>
          simp only [analyzeOnePropWith, hbp]
          exact ⟨fun k v h => h, fun k v h => Or.inl h, hkeyed, hpref, hanc⟩
        | some b =>
          cases hew : strEndsWith b ("Procedure") with
          | false =>
            simp only [analyzeOnePropWith, hbp, hew, Bool.false_eq_true, if_false]
            exact ⟨fun k v h => h, fun k v h => Or.inl h, hkeyed, hpref, hanc⟩
          | true =>
            simp only [analyzeOnePropWith, hbp, hew, if_true]
            exact insert_step_invariant env apiVar procs rootSf rootDecl hapi hpath hn
              hkeyed hnoU hpref hanc
      | propAccess o pn =>
        exact ⟨fun k v h => h, fun k v h => Or.inl h, hkeyed, hpref, hanc⟩
      | objectLit props =>
        exact ⟨fun k v h => h, fun k v h => Or.inl h, hkeyed, hpref, hanc⟩
      | satisfiesExpr inner tt =>
        exact ⟨fun k v h => h, fun k v h => Or.inl h, hkeyed, hpref, hanc⟩
      | rawExpr tt =>
        exact ⟨fun k v h => h, fun k v h => Or.inl h, hkeyed, hpref, hanc⟩
    -- Invariant for the property fold.
    have hprops : ∀ (props : List ObjProp) (sf : SourceFile) (d : VarDecl)
        (path : List String) (allProps : List ObjProp) (m : Mapping),
        GoodL path →
        ReachesRouter env procs rootSf rootDecl path sf d →
        routerEntriesOf d = some allProps →
        (∀ p ∈ props, p ∈ allProps) →
        (∀ x ∈ propNamesOf props, goodName x = true) →
        nodupB (propNamesOf props) = true →
        Keyed apiVar m →
        (∀ x r v, GoodL (path ++ x :: r) →
          m (mkKey apiVar (path ++ x :: r)) = some v →
          x ∈ propNamesOf props → False) →
        Pref env apiVar procs rootSf rootDecl m →
        Anc env apiVar procs rootSf rootDecl path m →
        (∀ k v, m k = some v →
          analyzePropsWith (analyzeRouter env apiVar procs fuel) env apiVar procs sf
            path props m k = some v)
        ∧ (∀ k v, analyzePropsWith (analyzeRouter env apiVar procs fuel) env apiVar
            procs sf path props m k = some v →
          m k = some v ∨ ∃ x r, x ∈ propNamesOf props ∧ GoodL (path ++ x :: r) ∧
            k = mkKey apiVar (path ++ x :: r))
        ∧ Keyed apiVar (analyzePropsWith (analyzeRouter env apiVar procs fuel) env
            apiVar procs sf path props m)
        ∧ Pref env apiVar procs rootSf rootDecl
            (analyzePropsWith (analyzeRouter env apiVar procs fuel) env apiVar procs
              sf path props m)
        ∧ Anc env apiVar procs rootSf rootDecl path
            (analyzePropsWith (analyzeRouter env apiVar procs fuel) env apiVar procs
              sf path props m) := by
      intro props
      induction props with
      | nil =>
        intro sf d path allProps m hpath hreach hallprops hsub hnames hnodup hkeyed
          hfr hpref hanc
        exact ⟨fun k v h => h, fun k v h => Or.inl h, hkeyed, hpref, hanc⟩
      | cons p rest ihq =>
        intro sf d path allProps m hpath hreach hallprops hsub hnames hnodup hkeyed
          hfr hpref hanc
        cases p with
        | propAssign key value ps pe =>
          have hn : goodName key.text = true :=
            hnames key.text (List.mem_cons_self _ _)
          have hnodup2 : nodupB (propNamesOf rest) = true := by
            rw [propNamesOf_cons_assign] at hnodup
            simp only [nodupB, Bool.and_eq_true] at hnodup
            exact hnodup.2
          have hnot : key.text ∉ propNamesOf rest := by
            rw [propNamesOf_cons_assign] at hnodup
            simp only [nodupB, Bool.and_eq_true, Bool.not_eq_true'] at hnodup
            intro hmem
            have : (propNamesOf rest).contains key.text = true := by simpa using hmem
            rw [this] at hnodup
            exact absurd hnodup.1 (by simp)
          have hnoU : ∀ r, GoodL (path ++ key.text :: r) →
              m (mkKey apiVar (path ++ key.text :: r)) = none := by
            intro r hg
            cases hmv : m (mkKey apiVar (path ++ key.text :: r)) with
            | none => rfl
            | some v =>
              exact (hfr key.text r v hg hmv (List.mem_cons_self _ _)).elim
          have honeRes := hone sf d path allProps key value ps pe m hpath hreach
            hallprops (hsub _ (List.mem_cons_self _ _)) hn hkeyed hnoU hpref hanc
          have hfr2 : ∀ x r v, GoodL (path ++ x :: r) →
              analyzeOnePropWith (analyzeRouter env apiVar procs fuel) env apiVar
                procs sf path (ObjProp.propAssign key value ps pe) m
                (mkKey apiVar (path ++ x :: r)) = some v →
              x ∈ propNamesOf rest → False := by
            intro x r v hg hmv hx
            rcases honeRes.2.1 _ _ hmv with hold | ⟨rr, hgood, hk⟩
            · exact hfr x r v hg hold (List.mem_cons_of_mem _ hx)
            · have heq := mkKey_inj hapi _ _ hg hgood hk
              have h2 := List.append_cancel_left heq
              simp only [List.cons.injEq] at h2
              exact hnot (h2.1 ▸ hx)
          have ihqRes := ihq sf d path allProps
            (analyzeOnePropWith (analyzeRouter env apiVar procs fuel) env apiVar
              procs sf path (ObjProp.propAssign key value ps pe) m)
            hpath hreach hallprops (fun q hq => hsub q (List.mem_cons_of_mem _ hq))
            (fun x hx => hnames x (List.mem_cons_of_mem _ hx)) hnodup2
            honeRes.2.2.1 hfr2 honeRes.2.2.2.1 honeRes.2.2.2.2
          refine ⟨?_, ?_, ihqRes.2.2.1, ihqRes.2.2.2.1, ihqRes.2.2.2.2⟩
          · intro k v h
            exact ihqRes.1 k v (honeRes.1 k v h)
          · intro k v h
            rcases ihqRes.2.1 k v h with h1 | ⟨x, r, hx, hgood, hk⟩
            · rcases honeRes.2.1 k v h1 with h2 | ⟨r, hgood, hk⟩
              · exact Or.inl h2
              · exact Or.inr ⟨key.text, r, List.mem_cons_self _ _, hgood, hk⟩
            · exact Or.inr ⟨x, r, List.mem_cons_of_mem _ hx, hgood, hk⟩
        | shorthand n =>
          exact ihq sf d path allProps m hpath hreach hallprops
            (fun q hq => hsub q (List.mem_cons_of_mem _ hq)) hnames hnodup hkeyed
            hfr hpref hanc
        | spread e =>
          exact ihq sf d path allProps m hpath hreach hallprops
            (fun q hq => hsub q (List.mem_cons_of_mem _ hq)) hnames hnodup hkeyed
            hfr hpref hanc
    intro sf d path m hpath hreach hdw hkeyed hfresh hpref hanc
    cases hre : routerEntriesOf d with
    | none =>
      simp only [analyzeRouter, hre]
      exact ⟨fun k v h => h, fun k v h => Or.inl h, hkeyed, hpref⟩
    | some allProps =>
      simp only [analyzeRouter, hre]
      have hdw2 := hdw
      rw [entriesWF] at hdw2
      rw [hre] at hdw2
      simp only [Bool.and_eq_true] at hdw2
      have hng : ∀ x ∈ propNamesOf allProps, goodName x = true :=
        List.all_eq_true.mp hdw2.1
      have hfr0 : ∀ x r v, GoodL (path ++ x :: r) →
          m (mkKey apiVar (path ++ x :: r)) = some v →
          x ∈ propNamesOf allProps → False := by
        intro x r v hg hmv _
        rw [hfresh (x :: r) (List.cons_ne_nil _ _) hg] at hmv
        cases hmv
      have hq := hprops allProps sf d path allProps m hpath hreach hre
        (fun q hq => hq) hng hdw2.2 hkeyed hfr0 hpref hanc
      refine ⟨hq.1, ?_, hq.2.2.1, hq.2.2.2.1⟩
      intro k v h
      rcases hq.2.1 k v h with h1 | ⟨x, r, hx, hgood, hk⟩
      · exact Or.inl h1
      · exact Or.inr ⟨x :: r, List.cons_ne_nil _ _, hgood, hk⟩

end AstScanner

namespace Navigator

/-- A non-terminal (`nextDecl`) step processed as a last segment yields
that declaration's own definition. -/
theorem processRouterSegment_last_of_next (env : NavEnv) (cur : LocDecl)
    (s : String) (mid : LocDecl)
    (h : processRouterSegment env cur s false = StepOutcome.nextDecl mid) :
    processRouterSegment env cur s true =
      StepOutcome.definition (createDefinitionFromDeclaration mid.sf mid.decl s) := by
  cases hinit : cur.decl.initializer with
  | none =>
    simp only [processRouterSegment, hinit] at h
    cases h
  | some init =>
    cases hroutes : routesObjectOf init with
    | none =>
      simp only [processRouterSegment, hinit, hroutes] at h
      cases h
    | some props =>
      cases hfind : findMatchingProp props s with
      | none =>
        simp only [processRouterSegment, hinit, hroutes, hfind] at h
        cases h
      | some p =>
        cases p with
        | shorthand n =>
          simp only [processRouterSegment, hinit, hroutes, hfind] at h
          cases h
        | spread e =>
          simp only [processRouterSegment, hinit, hroutes, hfind] at h
          cases h
        | propAssign key value ps pe =>
          cases value with
          | propAccess o pn =>
            simp only [processRouterSegment, hinit, hroutes, hfind] at h
            cases h
          | objectLit w =>
            simp only [processRouterSegment, hinit, hroutes, hfind] at h
            cases h
          | satisfiesExpr i2 t2 =>
            simp only [processRouterSegment, hinit, hroutes, hfind] at h
            cases h
          | rawExpr t2 =>
            simp only [processRouterSegment, hinit, hroutes, hfind] at h
            cases h
          | call f args =>
            simp only [processRouterSegment, hinit, hroutes, hfind,
              handleInlineProcedure] at h
            simp at h
          | ident idName =>
            simp only [processRouterSegment, hinit, hroutes, hfind] at h ⊢
            cases hdecl : findDeclaration env idName cur.sf with
            | none =>
              simp only [handleIdentifierProperty, hdecl] at h
              cases h
            | some ld =>
              cases hli : ld.decl.initializer with
              | none =>
                simp only [handleIdentifierProperty, hdecl, hli] at h
                cases h
              | some i2 =>
                simp only [handleIdentifierProperty, hdecl, hli] at h ⊢
                cases hp : isProcedureDeclaration ld.decl with
                | true => simp [hp] at h
                | false =>
                  simp [hp] at h ⊢
                  rw [h]

end Navigator

/-- Claim C7: path-prefix monotonicity.  Batch scan: under the spec's
data-model invariant (well-formed, duplicate-free router entry names)
the mapping built by the scan is keyed entirely by good dotted paths,
and for every present key each proper nonempty prefix is also present
and maps to the declaration location of the ancestor router the scan
descended through at that prefix.  Navigator: whenever a path resolves
segment by segment past a prefix (each step yielding the next
declaration), navigating the prefix alone succeeds and returns the
ancestor router's own declaration location. -/
theorem C7_path_prefix_monotonicity (env : AstScanner.ScanEnv) (apiVar : String)
    (procs : List (String × AstScanner.NavigationTarget)) (routerRoot : String)
    (mainRouterName : Option String) (maxDepth : Option Nat)
    (mainSf : SourceFile) (mainDecl : VarDecl)
    (nenv : NavEnv) (root cur mid : LocDecl) (pre : List String) (s : String)
    (hapi : AstScanner.goodName apiVar = true)
    (hwf : AstScanner.ScanWF env)
    (hsf : AstScanner.getSourceFileAt env (routerRoot ++ "/index.ts") = some mainSf)
    (hmd : AstScanner.getVariableDeclOf mainSf
      (AstScanner.mainNameOf mainRouterName) = some mainDecl)
    (hdw : AstScanner.entriesWF mainDecl = true)
    (hchain : Navigator.chainNext nenv root pre cur)
    (hstep : Navigator.processRouterSegment nenv cur s false =
      Navigator.StepOutcome.nextDecl mid) :
    (∀ (q : List String) (t : AstScanner.NavigationTarget),
      AstScanner.GoodL q →
      AstScanner.buildRouterHierarchy env apiVar procs routerRoot mainRouterName
        maxDepth (AstScanner.mkKey apiVar q) = some t →
      ∀ j, 1 ≤ j → j < q.length →
        ∃ sf2 d2,
          AstScanner.ReachesRouter env procs mainSf mainDecl (q.take j) sf2 d2 ∧
          AstScanner.buildRouterHierarchy env apiVar procs routerRoot mainRouterName
            maxDepth (AstScanner.mkKey apiVar (q.take j)) =
            some (AstScanner.routerTargetOf env sf2 d2))
    ∧ AstScanner.Keyed apiVar
        (AstScanner.buildRouterHierarchy env apiVar procs routerRoot mainRouterName
          maxDepth)
    ∧ Navigator.navigateRouterPath nenv ⟨some root⟩ (pre ++ [s]) =
        some (Navigator.createDefinitionFromDeclaration mid.sf mid.decl s) := by
  have hB : AstScanner.buildRouterHierarchy env apiVar procs routerRoot
      mainRouterName maxDepth =
      AstScanner.analyzeRouter env apiVar procs
        (AstScanner.effMaxDepth maxDepth + 1) mainSf mainDecl [] AstScanner.memptyM := by
    simp only [AstScanner.buildRouterHierarchy, hsf, hmd]
    rfl
  have hInv := AstScanner.analyzeRouter_invariant env apiVar procs mainSf mainDecl
    hapi hwf (AstScanner.effMaxDepth maxDepth + 1) mainSf mainDecl []
    AstScanner.memptyM
    (fun x hx => absurd hx (List.not_mem_nil x))
    (AstScanner.ReachesRouter.here mainSf mainDecl)
    hdw
    (fun k v h => absurd h (by simp [AstScanner.memptyM]))
    (fun _ _ _ => rfl)
    (fun p t hp hpt => absurd hpt (by simp [AstScanner.memptyM]))
    (fun j hj1 hj2 => absurd (Nat.le_trans hj1 hj2) (by simp))
  refine ⟨?_, ?_, ?_⟩
  · rw [hB]
    exact hInv.2.2.2
  · rw [hB]
    exact hInv.2.2.1
  · have hlast := Navigator.processRouterSegment_last_of_next nenv cur s mid hstep
    show Navigator.navLoop nenv (Navigator.lastNameOf (pre ++ [s])) root (pre ++ [s]) =
      some (Navigator.createDefinitionFromDeclaration mid.sf mid.decl s)
    rw [Navigator.navLoop_append_chain nenv (Navigator.lastNameOf (pre ++ [s])) pre
      root cur [s] hchain (by simp)]
    show (match Navigator.processRouterSegment nenv cur s ([] : List String).isEmpty with
         | .definition d => some d
         | .nextDecl nd =>
           Navigator.navLoop nenv (Navigator.lastNameOf (pre ++ [s])) nd []
         | .notFound =>
           some (Navigator.createDefinitionFromDeclaration cur.sf cur.decl
             (Navigator.lastNameOf (pre ++ [s])))
         | .thrown => none) = _
    rw [show (([] : List String).isEmpty) = true from rfl, hlast]

/-- Witness for C7: on the two-level fixture project, the full key
`api.users.getUser` is present, its length-one prefix `api.users` is
present with the `usersRouter` declaration target, and navigating the
one-segment prefix `billing` of a longer resolvable path returns
`billingRouter`'s own declaration. -/
theorem C7_path_prefix_monotonicity_witness :
    AstScanner.buildRouterHierarchy c47Env "api" c47Procs "/r" none none
      (AstScanner.mkKey "api" ["users", "getUser"]) = some c47GetUserTarget
    ∧ (∃ sf2 d2,
        AstScanner.ReachesRouter c47Env c47Procs c47RootFile c47RootDecl
          (["users", "getUser"].take 1) sf2 d2 ∧
        AstScanner.buildRouterHierarchy c47Env "api" c47Procs "/r" none none
          (AstScanner.mkKey "api" (["users", "getUser"].take 1)) =
          some (AstScanner.routerTargetOf c47Env sf2 d2))
    ∧ Navigator.navigateRouterPath (fun _ => none) ⟨some c3Root⟩ ([] ++ ["billing"]) =
        some (Navigator.createDefinitionFromDeclaration c3File c3BillingDecl
          "billing") := by
  have hwf : AstScanner.ScanWF c47Env := by
    constructor
    · intro sf hsf
      simp only [c47Env, List.mem_cons, List.not_mem_nil, or_false] at hsf
      rcases hsf with h | h <;> subst h <;> rfl
    · intro f s sf h
      by_cases hf : f = "/r/index.ts"
      · by_cases hs : s = "./users"
        · subst hf
          subst hs
          have h2 : some c47UsersFile = some sf := h
          obtain rfl := Option.some.inj h2
          rfl
        · simp only [c47Env] at h
          simp [hs] at h
      · simp only [c47Env] at h
        simp [hf] at h
  have h := C7_path_prefix_monotonicity c47Env "api" c47Procs "/r" none none
    c47RootFile c47RootDecl (fun _ => none) c3Root c3Root c3Billing [] "billing"
    (by decide) hwf rfl rfl rfl rfl rfl
  have hfull : AstScanner.buildRouterHierarchy c47Env "api" c47Procs "/r" none none
      (AstScanner.mkKey "api" ["users", "getUser"]) = some c47GetUserTarget := rfl
  exact ⟨hfull,
    h.1 ["users", "getUser"] c47GetUserTarget
      (by unfold AstScanner.GoodL; decide) hfull 1 (by decide) (by decide),
    h.2.2⟩
